import Mathlib

/-!
Verification of the midbel/pdf core against its specification.

Shallow embedding conventions:
* Go byte strings (`string`, `[]byte`) are modeled as `List Nat`, each element a
  byte value; `gs` converts an ASCII Lean string literal to this form.
* Go `int`/`int64` are modeled as `Int`; machine truncation is written out
  explicitly (`% 2 ^ 64` etc.) where the source can overflow.
* Go maps (`Dict`) are modeled as association lists with last-insert-wins
  insertion; lookup mirrors `Dict.getValue` from src/dict.go.
* Fallible code returns `Option`; `none` models a Go error return or a Go
  runtime panic (out-of-range slice index), as noted at each definition.
* Loops are modeled by structurally recursive helpers on an explicit bound
  that the wrapper instantiates with a value the loop can never exhaust
  (each iteration consumes at least one byte of the cursor).
-/

/-- Bytes of a Go string (ASCII literals only are used below). -/
def gs (s : String) : List Nat := s.data.map Char.toNat

/-- `strings.ToLower`, restricted to its ASCII action (the only case PDF name
keys exercise here). -/
def toLowerByte (b : Nat) : Nat := if 65 ≤ b ∧ b ≤ 90 then b + 32 else b

/-- `strings.ToUpper`, restricted to its ASCII action. -/
def toUpperByte (b : Nat) : Nat := if 97 ≤ b ∧ b ≤ 122 then b - 32 else b

def strToLower (s : List Nat) : List Nat := s.map toLowerByte

def strToUpper (s : List Nat) : List Nat := s.map toUpperByte

/-- The dynamic PDF values produced by the parser in src/dict.go.  Names,
literal strings, hex strings and references are all Go `string`s there, so
they share the `vStr` constructor.  `vReal` carries the decimal text handed
to `strconv.ParseFloat`; the float itself is not modeled. -/
inductive GoValue where
  | vBool (b : Bool)
  | vInt (n : Int)
  | vReal (s : List Nat)
  | vStr (s : List Nat)
  | vArr (xs : List GoValue)
  | vDict (d : List (List Nat × GoValue))

/-- A Go `map[string]Value`: association list, later inserts shadow earlier
ones (lookup takes the most recent binding). -/
abbrev DictGo := List (List Nat × GoValue)

def dictFind : DictGo → List Nat → Option GoValue
  | [], _ => none
  | (k, v) :: rest, key => if k = key then some v else dictFind rest key

/-- Go map insertion: replace an existing binding or add a new one. -/
def dictPut : DictGo → List Nat → GoValue → DictGo
  | [], key, v => [(key, v)]
  | (k, w) :: rest, key, v =>
      if k = key then (k, v) :: rest else (k, w) :: dictPut rest key v

/-- `Dict.getValue` (src/dict.go:126-128): the lookup key is lowercased before
the map access. -/
def getValueGo (d : DictGo) (key : List Nat) : Option GoValue :=
  dictFind d (strToLower key)

/-- `Dict.Has` (src/dict.go:53-56). -/
def dictHas (d : DictGo) (key : List Nat) : Bool :=
  (getValueGo d key).isSome

/-- `Dict.GetString` (src/dict.go:76-79): type assertion to `string`, zero
value `""` on mismatch or absence. -/
def dictGetString (d : DictGo) (key : List Nat) : List Nat :=
  match getValueGo d key with
  | some (.vStr s) => s
  | _ => []

/-- `Dict.GetInt` (src/dict.go:81-84). -/
def dictGetInt (d : DictGo) (key : List Nat) : Int :=
  match getValueGo d key with
  | some (.vInt n) => n
  | _ => 0

/-- `Dict.GetBool` (src/dict.go:66-69). -/
def dictGetBool (d : DictGo) (key : List Nat) : Bool :=
  match getValueGo d key with
  | some (.vBool b) => b
  | _ => false

/-- `Dict.GetArray` (src/dict.go:91-97). -/
def dictGetArray (d : DictGo) (key : List Nat) : List GoValue :=
  match getValueGo d key with
  | some (.vArr xs) => xs
  | _ => []

/-- `Dict.GetIntArray` (src/dict.go:99-110). -/
def dictGetIntArray (d : DictGo) (key : List Nat) : List Int :=
  (dictGetArray d key).filterMap fun v =>
    match v with
    | .vInt n => some n
    | _ => none

/-- `Dict.GetStringArray` (src/dict.go:112-124). -/
def dictGetStringArray (d : DictGo) (key : List Nat) : List (List Nat) :=
  (dictGetArray d key).filterMap fun v =>
    match v with
    | .vStr s => some s
    | _ => none

/-- `Dict.GetDict` (src/dict.go:58-64): zero value is the empty dict. -/
def dictGetDict (d : DictGo) (key : List Nat) : DictGo :=
  match getValueGo d key with
  | some (.vDict k) => k
  | _ => []

/-- An `Object` (src/object.go:24-29).  `dict = none` models a nil Go map,
distinct from an empty one, which `isZero` inspects. -/
structure ObjectGo where
  oid : List Nat := []
  dict : Option DictGo := none
  data : Option GoValue := none
  content : List Nat := []

/-- Dict accessors promoted through the embedded field; on a nil map every
lookup misses, which is exactly Go's behavior. -/
def ObjectGo.dictOrNil (o : ObjectGo) : DictGo := o.dict.getD []

def ObjectGo.GetString (o : ObjectGo) (key : List Nat) : List Nat :=
  dictGetString o.dictOrNil key

def ObjectGo.GetInt (o : ObjectGo) (key : List Nat) : Int :=
  dictGetInt o.dictOrNil key

def ObjectGo.GetIntArray (o : ObjectGo) (key : List Nat) : List Int :=
  dictGetIntArray o.dictOrNil key

def ObjectGo.GetStringArray (o : ObjectGo) (key : List Nat) : List (List Nat) :=
  dictGetStringArray o.dictOrNil key

def ObjectGo.GetDict (o : ObjectGo) (key : List Nat) : DictGo :=
  dictGetDict o.dictOrNil key

def ObjectGo.Has (o : ObjectGo) (key : List Nat) : Bool :=
  dictHas o.dictOrNil key

/-- `Object.isZero` (src/object.go:122-124), disjunction exactly as written. -/
def ObjectGo.isZero (o : ObjectGo) : Bool :=
  o.oid = [] && (o.dict.isNone || o.data.isNone)

/-- `Object.isType` (src/object.go:115-120). -/
def ObjectGo.isType (o : ObjectGo) (str : List Nat) : Bool :=
  match o.dict with
  | none => false
  | some d => dictGetString d (gs "type") = str

def ObjectGo.IsPage (o : ObjectGo) : Bool := o.isType (gs "Page")

def ObjectGo.IsObjectStream (o : ObjectGo) : Bool := o.isType (gs "ObjStm")

/-- `Dict.IsFlate` (src/dict.go:38-40), through the embedded dict. -/
def ObjectGo.IsFlate (o : ObjectGo) : Bool :=
  dictGetString o.dictOrNil (gs "filter") = gs "FlateDecode"

def ObjectGo.IsLZW (o : ObjectGo) : Bool :=
  dictGetString o.dictOrNil (gs "filter") = gs "LZWDecode"

/- ------------------------------------------------------------------ -/
/-  C6: case-insensitive dictionary lookup                             -/
/- ------------------------------------------------------------------ -/

theorem toLowerByte_toLowerByte (b : Nat) :
    toLowerByte (toLowerByte b) = toLowerByte b := by
  unfold toLowerByte
  split_ifs <;> omega

theorem toLowerByte_toUpperByte (b : Nat) :
    toLowerByte (toUpperByte b) = toLowerByte b := by
  unfold toLowerByte toUpperByte
  split_ifs <;> omega

theorem strToLower_strToLower (s : List Nat) :
    strToLower (strToLower s) = strToLower s := by
  induction s with
  | nil => rfl
  | cons b t ih =>
      simp only [strToLower, List.map_cons] at *
      rw [toLowerByte_toLowerByte]
      simpa [strToLower] using ih

theorem strToLower_strToUpper (s : List Nat) :
    strToLower (strToUpper s) = strToLower s := by
  induction s with
  | nil => rfl
  | cons b t ih =>
      simp only [strToLower, strToUpper, List.map_cons] at *
      rw [toLowerByte_toUpperByte]
      simpa [strToLower, strToUpper] using ih

/-- C6: for every dictionary and every name, lookups are case-insensitive:
`d.get(k) == d.get(k.lowercase()) == d.get(k.uppercase())`, because
`Dict.getValue` lowercases the lookup key before the map access
(src/dict.go:126-128); keys were lowercased on insertion
(src/dict.go:222), so the stored bindings are reached either way. -/
theorem C6_case_insensitive_keys (d : DictGo) (k : List Nat) :
    getValueGo d k = getValueGo d (strToLower k) ∧
    getValueGo d k = getValueGo d (strToUpper k) := by
  unfold getValueGo
  rw [strToLower_strToLower, strToLower_strToUpper]
  exact ⟨rfl, rfl⟩

/- ------------------------------------------------------------------ -/
/-  Byte cursor: the Reader of src/read.go (second part of the file)   -/
/- ------------------------------------------------------------------ -/

/-- The `Reader` (src/read.go:290-293): an immutable byte buffer and a
position.  The position is a Go `int`; `Seek` can drive it negative or past
the end, so it is an `Int` here. -/
structure ReaderGo where
  buf : List Nat
  ptr : Int

/-- `Reader.Len` (src/read.go:322-327). -/
def ReaderGo.lenGo (r : ReaderGo) : Int :=
  if r.ptr ≥ r.buf.length then 0 else r.buf.length - r.ptr

/-- `Reader.AtEOF` (src/read.go:310-312). -/
def ReaderGo.atEOF (r : ReaderGo) : Bool :=
  r.ptr ≥ r.buf.length

/-- `Reader.Tell` (src/read.go:429-431). -/
def ReaderGo.tellGo (r : ReaderGo) : Int := r.ptr

/-- `Reader.ReadByte` (src/read.go:466-473): `none` is `io.EOF`.  A negative
position would make the Go slice index panic; that is also `none` here and is
unreachable from the entry points modeled below (they all start at a
non-negative position and never drive it negative). -/
def ReaderGo.readByte (r : ReaderGo) : Option Nat × ReaderGo :=
  if r.ptr ≥ r.buf.length then (none, r)
  else if h : 0 ≤ r.ptr ∧ r.ptr.toNat < r.buf.length then
    (some (r.buf.get ⟨r.ptr.toNat, h.2⟩), { r with ptr := r.ptr + 1 })
  else (none, r)

/-- The ubiquitous `b, _ := r.ReadByte()` pattern: the error is dropped and
the byte is the zero value `0` at EOF. -/
def ReaderGo.readByteD (r : ReaderGo) : Nat × ReaderGo :=
  ((r.readByte).1.getD 0, (r.readByte).2)

/-- `Reader.UnreadByte` (src/read.go:475-481). -/
def ReaderGo.unreadByte (r : ReaderGo) : ReaderGo :=
  if r.ptr ≤ 0 then r else { r with ptr := r.ptr - 1 }

/-- Seek whence constants of package io. -/
inductive WhenceGo where
  | seekStart
  | seekCurrent
  | seekEnd
  | invalid

/-- `Reader.Seek` (src/read.go:433-448).  Faithful to the source: the new
position is stored first, only a *negative* result is reported as an error
(the stored position is then still the negative one, as in Go). -/
def ReaderGo.seekAt (r : ReaderGo) (p : Int) : Option Int × ReaderGo :=
  if p < 0 then (none, { r with ptr := p }) else (some p, { r with ptr := p })

def ReaderGo.seekGo (r : ReaderGo) (offset : Int) (whence : WhenceGo) :
    Option Int × ReaderGo :=
  match whence with
  | .seekStart => r.seekAt offset
  | .seekCurrent => r.seekAt (r.ptr + offset)
  | .seekEnd => r.seekAt (r.buf.length + offset)
  | .invalid => (none, r)

/-- `Reader.StartsWith` (src/read.go:368-373). -/
def ReaderGo.startsWithGo (r : ReaderGo) (b : List Nat) : Bool :=
  if r.ptr ≥ r.buf.length then false
  else decide (List.IsPrefix b (r.buf.drop r.ptr.toNat))

/-- `Reader.Discard` (src/read.go:394-404): EOF when already at or past the
end, otherwise the position advances by `n` unconditionally (clamped back to
the end when it overshoots). -/
def ReaderGo.discard (r : ReaderGo) (n : Int) : ReaderGo :=
  if r.ptr ≥ r.buf.length then r
  else
    let p := r.ptr + n
    if p ≥ r.buf.length then { r with ptr := (r.buf.length : Int) }
    else { r with ptr := p }

/-- Character-class predicates from the source (constants section of the
token file). -/
def isDigitB (b : Nat) : Bool := 48 ≤ b ∧ b ≤ 57

def isLetterB (b : Nat) : Bool := (97 ≤ b ∧ b ≤ 122) ∨ (65 ≤ b ∧ b ≤ 90)

def isSignB (b : Nat) : Bool := b = 45 ∨ b = 43

def isNumberB (b : Nat) : Bool := isDigitB b || isSignB b

def isSpaceB (b : Nat) : Bool := b = 32 ∨ b = 9

def isBlankB (b : Nat) : Bool := isSpaceB b || (b = 13 || b = 10)

/-- Loop body of `skipBlank` with an explicit structural bound; every
continuing iteration consumes one byte, so a bound of `Len + 1` is never
exhausted. -/
def skipBlankF : Nat → ReaderGo → ReaderGo
  | 0, r => r
  | fuel + 1, r =>
      if r.lenGo > 0 then
        let (b, r') := r.readByteD
        if isBlankB b then skipBlankF fuel r' else r'.unreadByte
      else r

/-- `skipBlank` (the token file): skip spaces, tabs, CR and LF. -/
def skipBlank (r : ReaderGo) : ReaderGo :=
  skipBlankF (r.lenGo.toNat + 1) r

/- ------------------------------------------------------------------ -/
/-  C8: seek / read-at-EOF behavior                                    -/
/- ------------------------------------------------------------------ -/

/-- C8 counterexample: the claim says a seek to a position outside the range
of the backing buffer returns an error.  On a 3-byte buffer, seeking to
offset 10 from the start succeeds (`Seek` only rejects a negative result,
src/read.go:444-446), so the claim is false. -/
theorem C8_counterexample :
    (ReaderGo.seekGo ⟨[1, 2, 3], 0⟩ 10 .seekStart).1 = some 10 := by
  rfl

/-- C8 (amended): a seek that would land on a *negative* position returns an
error; any non-negative target — including positions beyond the end of the
buffer — succeeds and becomes the new position; and a `ReadByte` issued at or
past end-of-file returns EOF (`none`) without moving the cursor. -/
theorem C8_seek_read_eof (r : ReaderGo) (off : Int) :
    ((off < 0 → (r.seekGo off .seekStart).1 = none) ∧
     (0 ≤ off → (r.seekGo off .seekStart).1 = some off ∧
        (r.seekGo off .seekStart).2.ptr = off)) ∧
    (r.ptr ≥ r.buf.length → r.readByte = (none, r)) := by
  refine ⟨⟨fun hneg => ?_, fun hpos => ?_⟩, fun heof => ?_⟩
  · simp only [ReaderGo.seekGo, ReaderGo.seekAt]
    rw [if_pos hneg]
  · simp only [ReaderGo.seekGo, ReaderGo.seekAt]
    rw [if_neg (by omega)]
    exact ⟨rfl, rfl⟩
  · simp only [ReaderGo.readByte]
    rw [if_pos heof]

/-- Witness for C8: on a concrete 2-byte reader, seeking to -1 errors,
seeking to 7 succeeds, and reading at end-of-file yields EOF. -/
theorem C8_seek_read_eof_witness :
    ((ReaderGo.seekGo ⟨[5, 6], 0⟩ (-1) .seekStart).1 = none) ∧
    ((ReaderGo.seekGo ⟨[5, 6], 0⟩ 7 .seekStart).1 = some 7) ∧
    (ReaderGo.readByte ⟨[5, 6], 2⟩ = (none, ⟨[5, 6], 2⟩)) :=
  ⟨(C8_seek_read_eof ⟨[5, 6], 0⟩ (-1)).1.1 (by decide),
   ((C8_seek_read_eof ⟨[5, 6], 0⟩ 7).1.2 (by decide)).1,
   (C8_seek_read_eof ⟨[5, 6], 2⟩ 0).2 (by decide)⟩

/- ------------------------------------------------------------------ -/
/-  Decimal rendering (fmt.Sprintf "%d"), pointers                     -/
/- ------------------------------------------------------------------ -/

/-- Decimal digits of a natural number, most significant first; the bound is
structural fuel that `natDec` instantiates with `n + 1`, which the division
chain can never exhaust. -/
def natDecF : Nat → Nat → List Nat
  | 0, _ => []
  | fuel + 1, n => if n < 10 then [48 + n] else natDecF fuel (n / 10) ++ [48 + n % 10]

def natDec (n : Nat) : List Nat := natDecF (n + 1) n

/-- `fmt.Sprintf("%d", n)` for a Go integer. -/
def intDec (n : Int) : List Nat :=
  if n < 0 then 45 :: natDec (-n).toNat else natDec n.toNat

/-- `fmt.Sprintf("%d/%d", a, b)` — the Oid format used throughout. -/
def fmtOid (a b : Int) : List Nat := intDec a ++ [47] ++ intDec b

/-- A `Pointer` (src/object.go:14-18). -/
structure PointerGo where
  oid : List Nat := []
  owner : List Nat := []
  offset : Int := 0

/-- `Pointer.isEmbed` (src/object.go:20-22). -/
def PointerGo.isEmbed (p : PointerGo) : Bool := p.owner ≠ []

/- ------------------------------------------------------------------ -/
/-  Reader.ReadInt (src/read.go:450-460), big-endian                   -/
/- ------------------------------------------------------------------ -/

/-- Two's-complement reading of a 64-bit accumulator. -/
def toInt64 (z : Nat) : Int :=
  if z % 2 ^ 64 < 2 ^ 63 then (z % 2 ^ 64 : Nat) else (z % 2 ^ 64 : Nat) - 2 ^ 64

/-- The loop of `Reader.ReadInt`: `for i := n-1; i >= 0; i-- { b := ReadByte;
z |= int64(b) << (i*8) }`.  The counter is the number of bytes still to read;
bytes at EOF read as 0.  On byte values the or'ed lanes are disjoint, so the
or is written as addition; a lane shifted at or past bit 64 vanishes (the
`% 2 ^ 64`), as the corresponding Go shift does. -/
def readIntLoop : Nat → Nat → ReaderGo → Nat × ReaderGo
  | 0, z, r => (z, r)
  | i + 1, z, r =>
      let (b, r') := r.readByteD
      readIntLoop i (z + (b <<< (i * 8)) % 2 ^ 64) r'

/-- `Reader.ReadInt` (src/read.go:450-460): big-endian, `n` bytes into an
int64. -/
def ReaderGo.readIntBE (r : ReaderGo) (n : Int) : Int × ReaderGo :=
  let (z, r') := readIntLoop n.toNat 0 r
  (toInt64 z, r')

/- ------------------------------------------------------------------ -/
/-  Object.Body (src/object.go:74-113)                                 -/
/- ------------------------------------------------------------------ -/

/-- The row-predictor loop of `Object.Body` (src/object.go:106-111), applied
to the payload after inflation.  One step per `(columns+1)`-byte row: the
running `row` is incremented bytewise (mod 256, Go `byte` addition) by the
row's data bytes — `row[j] = row[j] + buf[i+j+1]` — and appended to the
output.  When fewer than `columns+1` bytes remain but the window is not
empty, `buf[i+j+1]` indexes past the end: a Go panic, `none` here.  The
structural bound is instantiated with the payload length plus one, which the
loop (advancing at least one byte per step) can never exhaust. -/
def predLoop (c : Nat) : Nat → List Nat → List Nat → Option (List Nat)
  | 0, _, _ => none
  | fuel + 1, row, window =>
      match window with
      | [] => some []
      | _ :: _ =>
          if window.length ≥ c + 1 then
            let row' := List.zipWith (fun a b => (a + b) % 256) row
              ((window.drop 1).take c)
            (predLoop c fuel row' (window.drop (c + 1))).map (row' ++ ·)
          else none

/-- `Object.Body` from the point where the payload has been read
(src/object.go:89-113): `buf` is the result of `io.ReadAll` — the inflated
bytes for a Flate stream, the raw content otherwise.  Without `decodeparms`
the payload is returned unchanged; `make([]byte, columns)` panics on a
negative count; `predictor <= 1` also returns the payload unchanged;
otherwise the row predictor runs. -/
def bodyStage2 (o : ObjectGo) (buf : List Nat) : Option (List Nat) :=
  if ¬ o.Has (gs "decodeparms") then some buf
  else
    let dict := o.GetDict (gs "decodeparms")
    let predictor : Int := dictGetInt dict (gs "predictor")
    let columns : Int := dictGetInt dict (gs "columns")
    if columns < 0 then none
    else if predictor ≤ 1 then some buf
    else predLoop columns.toNat (buf.length + 1) (List.replicate columns.toNat 0) buf

/-- `Object.Body` (src/object.go:74-113) for the objects exercised here:
zlib inflation is an external library and is not modeled, so this covers the
non-Flate branch, where `io.ReadAll` yields the raw content (the commented-out
LZW branch also falls through to the raw content). -/
def ObjectGo.bodyGo (o : ObjectGo) : Option (List Nat) :=
  if o.IsFlate then none
  else bodyStage2 o o.content

/- ------------------------------------------------------------------ -/
/-  Object.readXRef (src/object.go:197-232)                            -/
/- ------------------------------------------------------------------ -/

/-- `xs[i] = r.ReadInt(ws[i])` for `i` over the `W` widths, in order. -/
def readWidths : List Int → ReaderGo → List Int × ReaderGo
  | [], r => ([], r)
  | w :: ws, r =>
      let (x, r') := r.readIntBE w
      let (xs, r'') := readWidths ws r'
      (x :: xs, r'')

/-- One record of the xref-stream switch (src/object.go:217-228).  Outer
`none` is a Go panic (`xs[0]`, `xs[1]` or `xs[2]` out of range when `W` has
fewer than the needed fields); inner `none` is `continue` (no pointer: type 0
and every other unrecognized type). -/
def xrefRecord (oid : Int) (xs : List Int) : Option (Option PointerGo) :=
  match xs.get? 0 with
  | none => none
  | some t =>
      if t = 1 then
        match xs.get? 1, xs.get? 2 with
        | some f1, some f2 =>
            some (some { oid := fmtOid oid f2, owner := [], offset := f1 })
        | _, _ => none
      else if t = 2 then
        match xs.get? 1, xs.get? 2 with
        | some f1, some f2 =>
            some (some { oid := fmtOid oid 0, owner := fmtOid f1 0, offset := f2 })
        | _, _ => none
      else some none

/-- The record loop of `Object.readXRef` (src/object.go:212-230): `remaining`
counts down from `ix[1]`; the loop also stops early at EOF. -/
def xrefLoopGo (ws : List Int) : Nat → Int → ReaderGo → Option (List PointerGo)
  | 0, _, _ => some []
  | remaining + 1, oid, r =>
      if r.atEOF then some []
      else
        let (xs, r') := readWidths ws r
        match xrefRecord oid xs with
        | none => none
        | some rec =>
            (xrefLoopGo ws remaining (oid + 1) r').map fun ps =>
              match rec with
              | some p => p :: ps
              | none => ps

/-- `Object.readXRef` (src/object.go:197-232): decode the stream body, take
the `W` widths and the `Index` pairs (defaulting to `[0 size]`), and walk the
fixed-width records.  Only `ix[0]` and `ix[1]` are ever consulted. -/
def ObjectGo.readXRefM (o : ObjectGo) : Option (List PointerGo) :=
  match o.bodyGo with
  | none => none
  | some buf =>
      let ix0 := o.GetIntArray (gs "index")
      let ws := o.GetIntArray (gs "w")
      let ix := if ix0 = [] then [0, o.GetInt (gs "size")] else ix0
      match ix.get? 0, ix.get? 1 with
      | some ixa, some ix1 => xrefLoopGo ws ix1.toNat ixa ⟨buf, 0⟩
      | _, _ => none

/- ------------------------------------------------------------------ -/
/-  readLinearized (src/read.go:83-113)                                -/
/- ------------------------------------------------------------------ -/

/-- The object store: `readObject` at a byte offset is abstracted to a lookup
(the object-header and value parsing it performs are modeled separately);
`none` is a failing `readObject`. -/
abbrev StoreGo := List (Int × ObjectGo)

def objectAt : StoreGo → Int → Option ObjectGo
  | [], _ => none
  | (off, o) :: rest, pos => if off = pos then some o else objectAt rest pos

/-- The trailer-derived fields plus the object directory that
`readLinearized` fills in. -/
structure DocFieldsGo where
  encrypt : List Nat := []
  catalog : List Nat := []
  info : List Nat := []
  fileid : List (List Nat) := []
  xref : List PointerGo := []

/-- `readLinearized` (src/read.go:83-113): read the object at the current
offset, take its trailer fields and xref entries; if its dictionary carries a
positive `/Prev`, read the object there, *append* its entries to the
directory and overwrite the trailer fields with its values.  No further
`/Prev` is consulted and no duplicate filtering happens. -/
def readLinearizedM (st : StoreGo) (pos : Int) : Option DocFieldsGo :=
  match objectAt st pos with
  | none => none
  | some obj =>
      match obj.readXRefM with
      | none => none
      | some xs =>
          let prev := obj.GetInt (gs "prev")
          if prev > 0 then
            match objectAt st prev with
            | none => none
            | some obj2 =>
                match obj2.readXRefM with
                | none => none
                | some ys =>
                    some { encrypt := obj2.GetString (gs "encrypt"),
                           catalog := obj2.GetString (gs "root"),
                           info := obj2.GetString (gs "info"),
                           fileid := obj2.GetStringArray (gs "id"),
                           xref := xs ++ ys }
          else
            some { encrypt := obj.GetString (gs "encrypt"),
                   catalog := obj.GetString (gs "root"),
                   info := obj.GetString (gs "info"),
                   fileid := obj.GetStringArray (gs "id"),
                   xref := xs }

/- ------------------------------------------------------------------ -/
/-  C2: /Prev chains and duplicate suppression                         -/
/- ------------------------------------------------------------------ -/

/-- Latest revision: an xref stream for object 5 at offset 100, with
`/Prev 20`. -/
def c2objA : ObjectGo :=
  { oid := gs "12/0",
    dict := some [(gs "type", .vStr (gs "XRef")),
                  (gs "w", .vArr [.vInt 1, .vInt 1, .vInt 1]),
                  (gs "index", .vArr [.vInt 5, .vInt 1]),
                  (gs "prev", .vInt 20)],
    content := [1, 100, 0] }

/-- Middle revision: object 5 again (now at offset 200), with `/Prev 30`. -/
def c2objB : ObjectGo :=
  { oid := gs "13/0",
    dict := some [(gs "type", .vStr (gs "XRef")),
                  (gs "w", .vArr [.vInt 1, .vInt 1, .vInt 1]),
                  (gs "index", .vArr [.vInt 5, .vInt 1]),
                  (gs "prev", .vInt 30)],
    content := [1, 200, 0] }

/-- Oldest revision: the only revision that knows object 7. -/
def c2objC : ObjectGo :=
  { oid := gs "14/0",
    dict := some [(gs "type", .vStr (gs "XRef")),
                  (gs "w", .vArr [.vInt 1, .vInt 1, .vInt 1]),
                  (gs "index", .vArr [.vInt 7, .vInt 1])],
    content := [1, 50, 0] }

def c2store : StoreGo := [(10, c2objA), (20, c2objB), (30, c2objC)]

/-- C2 counterexample: on a three-revision chain the engine stops after one
`/Prev` hop and appends entries without checking for an existing Oid.  The
resulting directory is `[5/0, 5/0]`: the Oid `5/0` appears twice (the claim
says an earlier revision's entry is added only if its Oid is not already
present, so at most one live Pointer per Oid), and object `7/0` from the
third revision is missing (the claim says the chain is followed through
every prior revision). -/
theorem C2_counterexample :
    (readLinearizedM c2store 10).map (fun f => f.xref.map PointerGo.oid) =
      some [gs "5/0", gs "5/0"] := by
  rfl

/-- C2 (amended): on the linearized path — the only one that reads `/Prev`
(src/read.go:97); the classic trailer path never consults it — whenever the
first xref-stream object's dictionary carries a positive `/Prev`, the engine
reads the object at that offset exactly once, appends its xref entries to
the directory *unconditionally* (so an Oid already present is duplicated,
not suppressed), overwrites the trailer fields with the earlier revision's,
and never consults any further `/Prev`: the result is fully determined by
the two objects read. -/
theorem C2_one_prev_hop_no_dedup (st : StoreGo) (pos : Int) (obj obj2 : ObjectGo)
    (xs ys : List PointerGo)
    (h1 : objectAt st pos = some obj)
    (h2 : obj.readXRefM = some xs)
    (h3 : obj.GetInt (gs "prev") > 0)
    (h4 : objectAt st (obj.GetInt (gs "prev")) = some obj2)
    (h5 : obj2.readXRefM = some ys) :
    readLinearizedM st pos =
      some { encrypt := obj2.GetString (gs "encrypt"),
             catalog := obj2.GetString (gs "root"),
             info := obj2.GetString (gs "info"),
             fileid := obj2.GetStringArray (gs "id"),
             xref := xs ++ ys } := by
  unfold readLinearizedM
  simp only [h1, h2, h4, h5, if_pos h3]

/-- Witness for C2 (amended), on the concrete three-revision store. -/
theorem C2_one_prev_hop_no_dedup_witness :
    readLinearizedM c2store 10 =
      some { encrypt := [], catalog := [], info := [], fileid := [],
             xref := [{ oid := gs "5/0", owner := [], offset := 100 },
                      { oid := gs "5/0", owner := [], offset := 200 }] } :=
  C2_one_prev_hop_no_dedup c2store 10 c2objA c2objB
    [{ oid := gs "5/0", owner := [], offset := 100 }]
    [{ oid := gs "5/0", owner := [], offset := 200 }]
    rfl rfl (by decide) rfl rfl

/- ------------------------------------------------------------------ -/
/-  C5: cross-reference stream decoding                                -/
/- ------------------------------------------------------------------ -/

/-- An xref stream whose `Index` declares two subsections: `[0 1]` and
`[10 1]`, with one type-1 record for each. -/
def c5obj : ObjectGo :=
  { oid := gs "20/0",
    dict := some [(gs "type", .vStr (gs "XRef")),
                  (gs "w", .vArr [.vInt 1, .vInt 1, .vInt 1]),
                  (gs "index", .vArr [.vInt 0, .vInt 1, .vInt 10, .vInt 1])],
    content := [1, 65, 0, 1, 99, 0] }

/-- C5 counterexample: the claim says the `Index` array gives the
`(first, count)` *subsections*; on `Index = [0 1 10 1]` the second subsection
`[10 1]` should yield an InUse pointer for object 10 at offset 99.  The code
reads only `ix[0]` and `ix[1]` (src/object.go:212), so decoding stops after
the single record of the first subsection and object 10 is never produced. -/
theorem C5_counterexample :
    c5obj.readXRefM = some [{ oid := gs "0/0", owner := [], offset := 65 }] := by
  rfl

/-- Big-endian base-256 digits of `v`, `w` bytes, most significant first. -/
def encodeBE : Nat → Nat → List Nat
  | 0, _ => []
  | w + 1, v => (v / 256 ^ w) :: encodeBE w (v % 256 ^ w)

def encodeXRec (w1 w2 w3 t f1 f2 : Nat) : List Nat :=
  encodeBE w1 t ++ encodeBE w2 f1 ++ encodeBE w3 f2

def encodeXRecs (w1 w2 w3 : Nat) : List (Nat × Nat × Nat) → List Nat
  | [] => []
  | (t, f1, f2) :: rest => encodeXRec w1 w2 w3 t f1 f2 ++ encodeXRecs w1 w2 w3 rest

/-- Modeled from the spec's words for one subsection of a cross-reference
stream: a type-0 record is free (skipped), type 1 is
`InUse(offset = f1, gen = f2)`, type 2 is
`InStream(owner = (f1, 0), index = f2)`; other types produce nothing. -/
def xrefSpecPointers : Int → List (Nat × Nat × Nat) → List PointerGo
  | _, [] => []
  | oid, (t, f1, f2) :: rest =>
      (if t = 1 then
        [{ oid := fmtOid oid (f2 : Int), owner := [], offset := (f1 : Int) }]
       else if t = 2 then
        [{ oid := fmtOid oid 0, owner := fmtOid (f1 : Int) 0, offset := (f2 : Int) }]
       else []) ++ xrefSpecPointers (oid + 1) rest

theorem drop_head_lt {buf : List Nat} {p b : Nat} {rest : List Nat}
    (h : buf.drop p = b :: rest) : p < buf.length := by
  by_contra hle
  push_neg at hle
  rw [List.drop_eq_nil_of_le hle] at h
  cases h

theorem readByteD_pos {buf : List Nat} {p b : Nat} {rest : List Nat}
    (h : buf.drop p = b :: rest) :
    ReaderGo.readByteD ⟨buf, (p : Int)⟩ = (b, ⟨buf, (p : Int) + 1⟩) ∧
      buf.drop (p + 1) = rest := by
  have hp : p < buf.length := drop_head_lt h
  have hd := List.drop_eq_getElem_cons (l := buf) hp
  rw [hd] at h
  injection h with h1 h2
  constructor
  · simp only [ReaderGo.readByteD, ReaderGo.readByte]
    rw [if_neg (by omega), dif_pos ⟨by positivity, by simpa using hp⟩]
    simpa using h1
  · exact h2

theorem drop_of_append (xs : List Nat) {buf : List Nat} {p : Nat}
    {ys : List Nat}
    (h : buf.drop p = xs ++ ys) : buf.drop (p + xs.length) = ys := by
  rw [← List.drop_drop, h, List.drop_left]

theorem readIntLoop_encode :
    ∀ (w : Nat), w ≤ 7 → ∀ (v z p : Nat) (buf rest : List Nat),
    v < 2 ^ (8 * w) →
    buf.drop p = encodeBE w v ++ rest →
    readIntLoop w z ⟨buf, (p : Int)⟩ = (z + v, ⟨buf, ((p + w : Nat) : Int)⟩) := by
  intro w
  induction w with
  | zero =>
      intro _ v z p buf rest hv hbuf
      interval_cases v
      simp [readIntLoop]
  | succ w ih =>
      intro hw v z p buf rest hv hbuf
      have hd : v / 256 ^ w < 256 := by
        have h1 : (256 : Nat) ^ w > 0 := Nat.pos_pow_of_pos _ (by norm_num)
        have h2 : v < 256 ^ w * 256 := by
          have : (2 : Nat) ^ (8 * (w + 1)) = 256 ^ w * 256 := by
            rw [show 8 * (w + 1) = 8 * w + 8 by ring, pow_add]
            norm_num [show (256 : Nat) ^ w = 2 ^ (8 * w) by
              rw [show (256 : Nat) = 2 ^ 8 by norm_num, ← pow_mul, Nat.mul_comm]]
          omega
        exact Nat.div_lt_of_lt_mul h2
      simp only [encodeBE, List.cons_append] at hbuf
      obtain ⟨hrb, hrest⟩ := readByteD_pos hbuf
      have hcast : ((p : Int) + 1) = ((p + 1 : Nat) : Int) := by push_cast; ring
      have hshift : ((v / 256 ^ w) <<< (w * 8)) % 2 ^ 64 = (v / 256 ^ w) * 256 ^ w := by
        rw [Nat.shiftLeft_eq, Nat.mod_eq_of_lt]
        · congr 1
          rw [show (256 : Nat) ^ w = 2 ^ (8 * w) by
            rw [show (256 : Nat) = 2 ^ 8 by norm_num, ← pow_mul], Nat.mul_comm 8 w]
        · calc (v / 256 ^ w) * 2 ^ (w * 8) < 256 * 2 ^ (w * 8) := by
                have := hd
                have hpow : (0 : Nat) < 2 ^ (w * 8) := Nat.pos_pow_of_pos _ (by norm_num)
                exact Nat.mul_lt_mul_of_lt_of_le hd (le_refl _) hpow
             _ ≤ 2 ^ 64 := by
                rw [show (256 : Nat) = 2 ^ 8 by norm_num, ← pow_add]
                exact Nat.pow_le_pow_right (by norm_num) (by omega)
      have hv' : v % 256 ^ w < 2 ^ (8 * w) := by
        have : (256 : Nat) ^ w = 2 ^ (8 * w) := by
          rw [show (256 : Nat) = 2 ^ 8 by norm_num, ← pow_mul]
        rw [← this]
        exact Nat.mod_lt _ (Nat.pos_pow_of_pos _ (by norm_num))
      have hstep := ih (by omega) (v % 256 ^ w) (z + (v / 256 ^ w) * 256 ^ w)
        (p + 1) buf rest hv' hrest
      simp only [readIntLoop, hrb, hshift, hcast, hstep]
      have hsum : z + v / 256 ^ w * 256 ^ w + v % 256 ^ w = z + v := by
        have hdm := Nat.div_add_mod v (256 ^ w)
        have h256 : 256 ^ w * (v / 256 ^ w) = (v / 256 ^ w) * 256 ^ w := Nat.mul_comm _ _
        omega
      have hpos : p + 1 + w = p + (w + 1) := by ring
      rw [hsum, hpos]

theorem readIntBE_encode {w : Nat} (hw : w ≤ 7) {v p : Nat} {buf rest : List Nat}
    (hv : v < 2 ^ (8 * w)) (hbuf : buf.drop p = encodeBE w v ++ rest) :
    ReaderGo.readIntBE ⟨buf, (p : Int)⟩ (w : Int) =
      ((v : Int), ⟨buf, ((p + w : Nat) : Int)⟩) := by
  unfold ReaderGo.readIntBE
  rw [Int.toNat_natCast, readIntLoop_encode w hw v 0 p buf rest hv hbuf]
  have hv63 : v < 2 ^ 63 :=
    lt_of_lt_of_le hv (Nat.pow_le_pow_right (by norm_num) (by omega))
  simp only [Nat.zero_add, toInt64]
  rw [Nat.mod_eq_of_lt (lt_trans hv63 (by norm_num)), if_pos (by exact_mod_cast hv63)]

theorem encodeBE_length (w v : Nat) : (encodeBE w v).length = w := by
  induction w generalizing v with
  | zero => rfl
  | succ w ih => simp [encodeBE, ih]

theorem atEOF_false_of_lt {buf : List Nat} {p : Nat} (h : p < buf.length) :
    (ReaderGo.mk buf (p : Int)).atEOF = false := by
  simp only [ReaderGo.atEOF, decide_eq_false_iff_not]
  omega

theorem encodeXRec_ne_nil {w1 w2 w3 t f1 f2 : Nat} (h : 1 ≤ w1) :
    encodeXRec w1 w2 w3 t f1 f2 ≠ [] := by
  obtain ⟨u, rfl⟩ : ∃ u, w1 = u + 1 := ⟨w1 - 1, by omega⟩
  simp [encodeXRec, encodeBE]

theorem xrefLoopGo_encode (w1 w2 w3 : Nat)
    (hw1 : 1 ≤ w1) (hw1b : w1 ≤ 7) (hw2 : w2 ≤ 7) (hw3 : w3 ≤ 7) :
    ∀ (rs : List (Nat × Nat × Nat)) (oid : Int) (p : Nat) (buf rest : List Nat),
    (∀ r ∈ rs, r.1 < 2 ^ (8 * w1) ∧ r.2.1 < 2 ^ (8 * w2) ∧ r.2.2 < 2 ^ (8 * w3)) →
    buf.drop p = encodeXRecs w1 w2 w3 rs ++ rest →
    xrefLoopGo [(w1 : Int), w2, w3] rs.length oid ⟨buf, (p : Int)⟩ =
      some (xrefSpecPointers oid rs) := by
  intro rs
  induction rs with
  | nil => intro oid p buf rest _ _; rfl
  | cons hd tl ih =>
      intro oid p buf rest hbounds hbuf
      obtain ⟨t, f1, f2⟩ := hd
      obtain ⟨ht, hf1, hf2⟩ := hbounds _ (List.mem_cons_self _ _)
      have hbuf1 : buf.drop p =
          encodeBE w1 t ++ (encodeBE w2 f1 ++ (encodeBE w3 f2 ++
            (encodeXRecs w1 w2 w3 tl ++ rest))) := by
        simpa [encodeXRecs, encodeXRec, List.append_assoc] using hbuf
      have hplen : p < buf.length := by
        by_contra hle
        push_neg at hle
        rw [List.drop_eq_nil_of_le hle] at hbuf
        exact encodeXRec_ne_nil hw1
          (List.append_eq_nil.mp (List.append_eq_nil.mp hbuf.symm).1).1
      have h1 := readIntBE_encode hw1b ht hbuf1
      have hb2 : buf.drop (p + w1) =
          encodeBE w2 f1 ++ (encodeBE w3 f2 ++ (encodeXRecs w1 w2 w3 tl ++ rest)) := by
        have := drop_of_append (encodeBE w1 t) hbuf1
        simpa [encodeBE_length] using this
      have h2 := readIntBE_encode hw2 hf1 hb2
      have hb3 : buf.drop (p + w1 + w2) =
          encodeBE w3 f2 ++ (encodeXRecs w1 w2 w3 tl ++ rest) := by
        have := drop_of_append (encodeBE w2 f1) hb2
        simpa [encodeBE_length] using this
      have h3 := readIntBE_encode hw3 hf2 hb3
      have hb4 : buf.drop (p + w1 + w2 + w3) =
          encodeXRecs w1 w2 w3 tl ++ rest := by
        have := drop_of_append (encodeBE w3 f2) hb3
        simpa [encodeBE_length] using this
      have hrec := ih (oid + 1) (p + w1 + w2 + w3) buf rest
        (fun r hr => hbounds r (List.mem_cons_of_mem _ hr)) hb4
      simp only [List.length_cons, xrefLoopGo, atEOF_false_of_lt hplen,
        Bool.false_eq_true, if_false, readWidths, h1, h2, h3, hrec]
      by_cases ht1 : t = 1
      · subst ht1
        simp [xrefRecord, xrefSpecPointers]
      · by_cases ht2 : t = 2
        · subst ht2
          simp [xrefRecord, xrefSpecPointers]
        · have hc1 : ((t : Int) = 1) = False := by
            simp only [eq_iff_iff, iff_false]
            exact_mod_cast ht1
          have hc2 : ((t : Int) = 2) = False := by
            simp only [eq_iff_iff, iff_false]
            exact_mod_cast ht2
          simp [xrefRecord, xrefSpecPointers, hc1, hc2, ht1, ht2]

/-- C5 (amended): decoding a cross-reference stream walks its inflated
payload as fixed-width records whose three big-endian field widths come from
`W`; a type-0 record produces no Pointer, type 1 produces
`InUse(offset = f1, gen = f2)`, type 2 produces
`InStream(owner = (f1, 0), index = f2)` — but only the *first* `(first,
count)` pair of the `Index` array is used (`ix[0]`/`ix[1]`,
src/object.go:212); any further subsections are ignored, and the default for
a missing `Index` is `[0 size]`.  Stated for a single subsection of `count`
records. -/
theorem C5_xref_stream_decoding (o : ObjectGo) (buf rest : List Nat)
    (w1 w2 w3 : Nat) (first : Int) (rs : List (Nat × Nat × Nat))
    (hbody : o.bodyGo = some buf)
    (hw : o.GetIntArray (gs "w") = [(w1 : Int), (w2 : Int), (w3 : Int)])
    (hix : o.GetIntArray (gs "index") = [first, (rs.length : Int)])
    (hw1 : 1 ≤ w1) (hw1b : w1 ≤ 7) (hw2 : w2 ≤ 7) (hw3 : w3 ≤ 7)
    (hbounds : ∀ r ∈ rs,
      r.1 < 2 ^ (8 * w1) ∧ r.2.1 < 2 ^ (8 * w2) ∧ r.2.2 < 2 ^ (8 * w3))
    (hbuf : buf = encodeXRecs w1 w2 w3 rs ++ rest) :
    o.readXRefM = some (xrefSpecPointers first rs) := by
  unfold ObjectGo.readXRefM
  simp only [hbody, hw, hix]
  rw [if_neg (by simp)]
  simp only [List.get?]
  rw [Int.toNat_natCast]
  have h0 : ((0 : Nat) : Int) = (0 : Int) := rfl
  have := xrefLoopGo_encode w1 w2 w3 hw1 hw1b hw2 hw3 rs first 0 buf rest hbounds
    (by simpa using hbuf)
  simpa using this

/-- A concrete xref stream: `W = [1 2 1]`, one subsection `[4 2]`, one type-1
and one type-2 record. -/
def c5wObj : ObjectGo :=
  { oid := gs "21/0",
    dict := some [(gs "type", .vStr (gs "XRef")),
                  (gs "w", .vArr [.vInt 1, .vInt 2, .vInt 1]),
                  (gs "index", .vArr [.vInt 4, .vInt 2])],
    content := [1, 1, 44, 0, 2, 0, 9, 5] }

/-- Witness for C5 (amended): the concrete stream decodes to an InUse pointer
for object 4 at offset 300 and an InStream pointer for object 5 inside
stream 9 at index 5. -/
theorem C5_xref_stream_decoding_witness :
    c5wObj.readXRefM = some
      [{ oid := gs "4/0", owner := [], offset := 300 },
       { oid := gs "5/0", owner := gs "9/0", offset := 5 }] :=
  C5_xref_stream_decoding c5wObj ([1, 1, 44, 0, 2, 0, 9, 5]) []
    1 2 1 4 [(1, 300, 0), (2, 9, 5)] rfl rfl rfl
    (by decide) (by decide) (by decide) (by decide) (by decide) rfl

/- ------------------------------------------------------------------ -/
/-  C9: predictor loop totality                                        -/
/- ------------------------------------------------------------------ -/

theorem predLoop_isSome_iff (c : Nat) :
    ∀ (fuel : Nat) (row window : List Nat),
    window.length + 1 ≤ fuel →
    ((predLoop c fuel row window).isSome ↔ (c + 1) ∣ window.length) := by
  intro fuel
  induction fuel with
  | zero => intro row window h; omega
  | succ fuel ih =>
      intro row window hfuel
      match window with
      | [] => simp [predLoop]
      | w :: ws =>
          simp only [predLoop]
          by_cases hlen : (w :: ws).length ≥ c + 1
          · rw [if_pos hlen]
            rw [Option.isSome_map']
            have hdroplen : ((w :: ws).drop (c + 1)).length =
                (w :: ws).length - (c + 1) := by
              simp [List.length_drop]
            have := ih (List.zipWith (fun a b => (a + b) % 256) row
                ((List.drop 1 (w :: ws)).take c)) ((w :: ws).drop (c + 1))
              (by rw [hdroplen]; omega)
            rw [this, hdroplen]
            constructor
            · intro hd
              have : (w :: ws).length = ((w :: ws).length - (c + 1)) + (c + 1) := by
                omega
              rw [this]
              exact Nat.dvd_add hd (Nat.dvd_refl _)
            · intro hd
              exact Nat.dvd_sub' hd (Nat.dvd_refl _)
          · rw [if_neg hlen]
            simp only [Option.isSome_none, Bool.false_eq_true, false_iff]
            intro hd
            have hpos : 0 < (w :: ws).length := by simp
            have := Nat.le_of_dvd hpos hd
            omega

/-- C9: with `decodeparms` present, `predictor > 1` and `columns = c ≥ 1`,
the post-inflation stage of `Object.Body` (src/object.go:93-113) returns a
value exactly when the payload length is a multiple of `c + 1`; on any other
length the predictor loop's access `buf[i+j+1]` runs past the end of the
payload — a Go panic — instead of producing a value. -/
theorem C9_predictor_totality (o : ObjectGo) (buf : List Nat)
    (hhas : o.Has (gs "decodeparms") = true)
    (hpred : 2 ≤ dictGetInt (o.GetDict (gs "decodeparms")) (gs "predictor"))
    (hcols : 1 ≤ dictGetInt (o.GetDict (gs "decodeparms")) (gs "columns")) :
    (bodyStage2 o buf).isSome = true ↔
      ((dictGetInt (o.GetDict (gs "decodeparms")) (gs "columns")).toNat + 1) ∣
        buf.length := by
  unfold bodyStage2
  rw [if_neg (by simp [hhas]), if_neg (by omega), if_neg (by omega)]
  exact predLoop_isSome_iff _ _ _ _ (by omega)

/-- An object whose `decodeparms` declare predictor 12 over 2 columns. -/
def c9obj : ObjectGo :=
  { oid := gs "9/0",
    dict := some [(gs "decodeparms",
                    .vDict [(gs "predictor", .vInt 12), (gs "columns", .vInt 2)]),
                  (gs "length", .vInt 6)] }

/-- Witness for C9: with columns = 2, a 6-byte payload (two 3-byte rows)
decodes, and a 5-byte payload hits the out-of-range access. -/
theorem C9_predictor_totality_witness :
    ((bodyStage2 c9obj [7, 7, 7, 7, 7, 7]).isSome = true ↔ 3 ∣ 6) ∧
    ((bodyStage2 c9obj [7, 7, 7, 7, 7]).isSome = true ↔ 3 ∣ 5) :=
  ⟨C9_predictor_totality c9obj [7, 7, 7, 7, 7, 7] rfl (by decide) (by decide),
   C9_predictor_totality c9obj [7, 7, 7, 7, 7] rfl (by decide) (by decide)⟩

/- ------------------------------------------------------------------ -/
/-  C4: per-object RC4 key derivation                                  -/
/- ------------------------------------------------------------------ -/

/-- Per-round left-rotation amounts of MD5 (RFC 1321). -/
def md5S : List Nat :=
  [7, 12, 17, 22, 7, 12, 17, 22, 7, 12, 17, 22, 7, 12, 17, 22,
   5, 9, 14, 20, 5, 9, 14, 20, 5, 9, 14, 20, 5, 9, 14, 20,
   4, 11, 16, 23, 4, 11, 16, 23, 4, 11, 16, 23, 4, 11, 16, 23,
   6, 10, 15, 21, 6, 10, 15, 21, 6, 10, 15, 21, 6, 10, 15, 21]

/-- Per-round additive constants of MD5 (RFC 1321). -/
def md5K : List Nat :=
  [0xd76aa478, 0xe8c7b756, 0x242070db, 0xc1bdceee,
   0xf57c0faf, 0x4787c62a, 0xa8304613, 0xfd469501,
   0x698098d8, 0x8b44f7af, 0xffff5bb1, 0x895cd7be,
   0x6b901122, 0xfd987193, 0xa679438e, 0x49b40821,
   0xf61e2562, 0xc040b340, 0x265e5a51, 0xe9b6c7aa,
   0xd62f105d, 0x02441453, 0xd8a1e681, 0xe7d3fbc8,
   0x21e1cde6, 0xc33707d6, 0xf4d50d87, 0x455a14ed,
   0xa9e3e905, 0xfcefa3f8, 0x676f02d9, 0x8d2a4c8a,
   0xfffa3942, 0x8771f681, 0x6d9d6122, 0xfde5380c,
   0xa4beea44, 0x4bdecfa9, 0xf6bb4b60, 0xbebfbc70,
   0x289b7ec6, 0xeaa127fa, 0xd4ef3085, 0x04881d05,
   0xd9d4d039, 0xe6db99e5, 0x1fa27cf8, 0xc4ac5665,
   0xf4292244, 0x432aff97, 0xab9423a7, 0xfc93a039,
   0x655b59c3, 0x8f0ccc92, 0xffeff47d, 0x85845dd1,
   0x6fa87e4f, 0xfe2ce6e0, 0xa3014314, 0x4e0811a1,
   0xf7537e82, 0xbd3af235, 0x2ad7d2bb, 0xeb86d391]

def mask32 : Nat := 4294967295

/-- 32-bit left rotation; the shifted-out high bits and the wrapped-in low
bits occupy disjoint ranges, so the or is addition. -/
def rotl32 (x s : Nat) : Nat := ((x <<< s) % 2 ^ 32) + (x >>> (32 - s))

def leWord (b0 b1 b2 b3 : Nat) : Nat := b0 + 256 * b1 + 65536 * b2 + 16777216 * b3

/-- Little-endian 32-bit words of a 64-byte chunk. -/
def toWords : List Nat → List Nat
  | b0 :: b1 :: b2 :: b3 :: rest => leWord b0 b1 b2 b3 :: toWords rest
  | _ => []

def le8 (v : Nat) : List Nat :=
  [v % 256, v / 256 % 256, v / 256 ^ 2 % 256, v / 256 ^ 3 % 256,
   v / 256 ^ 4 % 256, v / 256 ^ 5 % 256, v / 256 ^ 6 % 256, v / 256 ^ 7 % 256]

def le4 (v : Nat) : List Nat :=
  [v % 256, v / 256 % 256, v / 65536 % 256, v / 16777216 % 256]

/-- MD5 padding: a 0x80 byte, zeros up to 56 mod 64, then the bit length as
eight little-endian bytes. -/
def md5Pad (msg : List Nat) : List Nat :=
  let len := msg.length
  let zeros := (120 - (len + 1) % 64) % 64
  msg ++ [128] ++ List.replicate zeros 0 ++ le8 ((len * 8) % 2 ^ 64)

structure MD5St where
  a : Nat
  b : Nat
  c : Nat
  d : Nat

/-- One of the 64 MD5 operations (RFC 1321, `crypto/md5` of the Go standard
library computes the same function). -/
def md5Round (m : List Nat) (st : MD5St) (i : Nat) : MD5St :=
  let fg : Nat × Nat :=
    if i < 16 then ((st.b &&& st.c) ||| ((st.b ^^^ mask32) &&& st.d), i)
    else if i < 32 then
      ((st.d &&& st.b) ||| ((st.d ^^^ mask32) &&& st.c), (5 * i + 1) % 16)
    else if i < 48 then (st.b ^^^ st.c ^^^ st.d, (3 * i + 5) % 16)
    else (st.c ^^^ (st.b ||| (st.d ^^^ mask32)), (7 * i) % 16)
  let f := (fg.1 + st.a + md5K.getD i 0 + m.getD fg.2 0) % 2 ^ 32
  ⟨st.d, (st.b + rotl32 f (md5S.getD i 0)) % 2 ^ 32, st.b, st.c⟩

def md5Chunk (st : MD5St) (chunk : List Nat) : MD5St :=
  let m := toWords chunk
  let e := (List.range 64).foldl (md5Round m) st
  ⟨(st.a + e.a) % 2 ^ 32, (st.b + e.b) % 2 ^ 32,
   (st.c + e.c) % 2 ^ 32, (st.d + e.d) % 2 ^ 32⟩

/-- Process the padded message 64 bytes at a time; the structural bound is
instantiated with more chunks than the message has. -/
def md5Chunks : Nat → MD5St → List Nat → MD5St
  | 0, st, _ => st
  | fuel + 1, st, msg =>
      match msg with
      | [] => st
      | _ :: _ => md5Chunks fuel (md5Chunk st (msg.take 64)) (msg.drop 64)

/-- MD5 of a byte sequence (RFC 1321). -/
def md5bytes (msg : List Nat) : List Nat :=
  let padded := md5Pad msg
  let st := md5Chunks (padded.length / 64 + 1)
    ⟨0x67452301, 0xefcdab89, 0x98badcfe, 0x10325476⟩ padded
  le4 st.a ++ le4 st.b ++ le4 st.c ++ le4 st.d

-- RFC 1321 test vector: MD5("") = d41d8cd98f00b204e9800998ecf8427e.
set_option maxRecDepth 8000 in
example : md5bytes [] =
    [0xd4, 0x1d, 0x8c, 0xd9, 0x8f, 0x00, 0xb2, 0x04,
     0xe9, 0x80, 0x09, 0x98, 0xec, 0xf8, 0x42, 0x7e] := by decide

-- RFC 1321 test vector: MD5("abc") = 900150983cd24fb0d6963f7d28e17f72.
set_option maxRecDepth 8000 in
example : md5bytes (gs "abc") =
    [0x90, 0x01, 0x50, 0x98, 0x3c, 0xd2, 0x4f, 0xb0,
     0xd6, 0x96, 0x3f, 0x7d, 0x28, 0xe1, 0x7f, 0x72] := by decide

/-- `getEncryptionKey` (the crypto helpers source file): copy the document
key, append three bytes of the object number and two of the generation
(little-endian, Go `byte(oid)`, `byte(oid>>8)`, ...), MD5 the result, and
return its first `min(len(document key) + 5, 16)` bytes
(`MaxKeyLength = 16`).  Object and generation numbers are the non-negative
integers scanned from object headers. -/
def getEncryptionKey (key : List Nat) (oid rev : Nat) : List Nat :=
  if key = [] then []
  else
    let decrypt := key ++ [oid % 256, (oid >>> 8) % 256, (oid >>> 16) % 256,
                           rev % 256, (rev >>> 8) % 256]
    let sum := md5bytes decrypt
    let size := if decrypt.length > 16 then 16 else decrypt.length
    sum.take size

/-- C4: for a non-empty document key of `length/8` bytes (`length` the
encrypt dictionary's key bit length, as `Document.setupKey` derives it,
src/doc.go:360), the per-object key equals MD5(document key ‖ three LSBs of
the object number, little-endian ‖ two LSBs of the generation,
little-endian), truncated to its first `min(length/8 + 5, 16)` bytes: the
source's `min(len(key)+5, 16)` coincides with the spec formula under that
hypothesis. -/
theorem C4_object_key (key : List Nat) (oid rev bits : Nat)
    (hne : key ≠ []) (hlen : key.length = bits / 8) :
    getEncryptionKey key oid rev =
      (md5bytes (key ++ [oid % 256, oid / 256 % 256, oid / 65536 % 256,
                         rev % 256, rev / 256 % 256])).take
        (min (bits / 8 + 5) 16) := by
  unfold getEncryptionKey
  rw [if_neg hne]
  have e1 : oid >>> 8 = oid / 256 := by rw [Nat.shiftRight_eq_div_pow]
  have e2 : oid >>> 16 = oid / 65536 := by rw [Nat.shiftRight_eq_div_pow]
  have e3 : rev >>> 8 = rev / 256 := by rw [Nat.shiftRight_eq_div_pow]
  simp only [e1, e2, e3, List.length_append, List.length_cons, List.length_nil]
  congr 1
  split_ifs <;> omega

/-- Witness for C4: a 40-bit (5-byte) document key, object 7 generation 0. -/
theorem C4_object_key_witness :
    getEncryptionKey [1, 2, 3, 4, 5] 7 0 =
      (md5bytes [1, 2, 3, 4, 5, 7, 0, 0, 0, 0]).take (min (40 / 8 + 5) 16) := by
  have h := C4_object_key [1, 2, 3, 4, 5] 7 0 40 (by decide) (by decide)
  simpa using h

/- ------------------------------------------------------------------ -/
/-  C3: the classic xref table (src/read.go:203-238)                   -/
/- ------------------------------------------------------------------ -/

def skipSpacesF : Nat → ReaderGo → ReaderGo
  | 0, r => r
  | fuel + 1, r =>
      if r.lenGo > 0 then
        let (b, r') := r.readByteD
        if isSpaceB b then skipSpacesF fuel r' else r'.unreadByte
      else r

def skipSpaces (r : ReaderGo) : ReaderGo := skipSpacesF (r.lenGo.toNat + 1) r

def scanDigitsF : Nat → List Nat → ReaderGo → List Nat × ReaderGo
  | 0, acc, r => (acc, r)
  | fuel + 1, acc, r =>
      if r.lenGo > 0 then
        let (b, r') := r.readByteD
        if isDigitB b then scanDigitsF fuel (acc ++ [b]) r' else (acc, r'.unreadByte)
      else (acc, r)

def natFromDigits (ds : List Nat) : Nat :=
  ds.foldl (fun a d => a * 10 + (d - 48)) 0

/-- `fmt.Fscanf`'s `%d` on the unsigned fixed-form fields of an xref table:
skip spaces, read a non-empty digit run (an empty run is a scan error). -/
def scanInt (r : ReaderGo) : Option (Nat × ReaderGo) :=
  let r1 := skipSpaces r
  let (ds, r2) := scanDigitsF (r1.lenGo.toNat + 1) [] r1
  if ds = [] then none else some (natFromDigits ds, r2)

def scanTokenF : Nat → List Nat → ReaderGo → List Nat × ReaderGo
  | 0, acc, r => (acc, r)
  | fuel + 1, acc, r =>
      if r.lenGo > 0 then
        let (b, r') := r.readByteD
        if isBlankB b then (acc, r'.unreadByte) else scanTokenF fuel (acc ++ [b]) r'
      else (acc, r)

/-- `fmt.Fscanf`'s `%s`: skip spaces, read up to the next whitespace. -/
def scanToken (r : ReaderGo) : List Nat × ReaderGo :=
  let r1 := skipSpaces r
  scanTokenF (r1.lenGo.toNat + 1) [] r1

/-- The literal `\r\n` terminating the record format string. -/
def expectCRLF (r : ReaderGo) : Option ReaderGo :=
  let (b1, r1) := r.readByteD
  let (b2, r2) := r1.readByteD
  if b1 = 13 ∧ b2 = 10 then some r2 else none

/-- The record loop of `readXRef` (src/read.go:219-236): `n_entries` records
`offset SP gen SP flag CRLF`; a record with flag `f` is skipped (`continue`),
any other flag yields an InUse Pointer for object `first + i`. -/
def xrefRecsGo : Nat → Int → ReaderGo → Option (List PointerGo)
  | 0, _, _ => some []
  | n + 1, oid, r =>
      match scanInt r with
      | none => none
      | some (off, r1) =>
          match scanInt r1 with
          | none => none
          | some (gen, r2) =>
              let (typ, r3) := scanToken r2
              if typ = [] then none
              else
                match expectCRLF r3 with
                | none => none
                | some r4 =>
                    (xrefRecsGo n (oid + 1) r4).map fun ps =>
                      if typ = [102] then ps
                      else { oid := fmtOid oid (gen : Int), owner := [],
                             offset := (off : Int) } :: ps

/-- `readXRef` (src/read.go:203-238): require the `xref` keyword, scan one
`first n_entries` header, then scan exactly `n_entries` records.  No loop
over further subsections exists in the source. -/
def readXRefClassic (r : ReaderGo) : Option (List PointerGo) :=
  if ¬ r.startsWithGo (gs "xref") then none
  else
    let r1 := skipBlank (r.discard 4)
    match scanInt r1 with
    | none => none
    | some (first, r2) =>
        match scanInt r2 with
        | none => none
        | some (num, r3) => xrefRecsGo num (first : Int) (skipBlank r3)

/-- C3 counterexample: the claim says one or more subsections are parsed.  On
a table with two subsections — `0 1` holding a free record and `3 1` holding
an in-use record for object 3 at offset 42 — the code parses only the first
subsection and returns no pointers; the claim requires an InUse Pointer for
object 3. -/
theorem C3_counterexample :
    readXRefClassic
      ⟨gs "xref\n0 1\n0000000000 65535 f\r\n3 1\n0000000042 00000 n\r\n", 0⟩ =
      some [] := by
  rfl

theorem lenGo_pos_of_lt {buf : List Nat} {p : Nat} (h : p < buf.length) :
    (ReaderGo.mk buf (p : Int)).lenGo > 0 := by
  simp only [ReaderGo.lenGo]
  rw [if_neg (by omega)]
  omega

theorem lenGo_toNat_eq {buf : List Nat} {p : Nat} (h : p < buf.length) :
    (ReaderGo.mk buf (p : Int)).lenGo.toNat = buf.length - p := by
  simp only [ReaderGo.lenGo]
  rw [if_neg (by omega)]
  omega

theorem unreadByte_succ {buf : List Nat} {p : Nat} :
    (ReaderGo.mk buf ((p : Int) + 1)).unreadByte = ⟨buf, (p : Int)⟩ := by
  simp only [ReaderGo.unreadByte]
  rw [if_neg (by omega)]
  congr 1
  omega

theorem skipSpacesF_run :
    ∀ (bs : List Nat) (fuel : Nat) {buf : List Nat} (p : Nat) {b : Nat}
      {rest : List Nat},
    (∀ x ∈ bs, isSpaceB x) → isSpaceB b = false → bs.length + 1 ≤ fuel →
    buf.drop p = bs ++ b :: rest →
    skipSpacesF fuel ⟨buf, (p : Int)⟩ = ⟨buf, ((p + bs.length : Nat) : Int)⟩ := by
  intro bs
  induction bs with
  | nil =>
      intro fuel buf p b rest _ hb hfuel hbuf
      obtain ⟨f, rfl⟩ : ∃ f, fuel = f + 1 := ⟨fuel - 1, by omega⟩
      simp only [List.nil_append] at hbuf
      have hp : p < buf.length := drop_head_lt hbuf
      obtain ⟨hrb, -⟩ := readByteD_pos hbuf
      simp only [skipSpacesF, lenGo_pos_of_lt hp, if_pos, hrb, hb,
        Bool.false_eq_true, if_false, unreadByte_succ]
      simp
  | cons x bs ih =>
      intro fuel buf p b rest hsp hb hfuel hbuf
      obtain ⟨f, rfl⟩ : ∃ f, fuel = f + 1 := ⟨fuel - 1, by omega⟩
      simp only [List.cons_append] at hbuf
      have hp : p < buf.length := drop_head_lt hbuf
      obtain ⟨hrb, hrest⟩ := readByteD_pos hbuf
      have hx : isSpaceB x := hsp x (List.mem_cons_self _ _)
      have hcast : ((p : Int) + 1) = ((p + 1 : Nat) : Int) := by push_cast; ring
      have := ih f (p + 1) (fun y hy => hsp y (List.mem_cons_of_mem _ hy)) hb
        (by simpa using hfuel) hrest
      simp only [skipSpacesF, lenGo_pos_of_lt hp, if_pos, hrb, hx, if_true,
        hcast, this]
      congr 1
      push_cast [List.length_cons]
      ring

theorem skipSpaces_run {bs : List Nat} {buf : List Nat} {p b : Nat}
    {rest : List Nat}
    (hbuf : buf.drop p = bs ++ b :: rest)
    (hsp : ∀ x ∈ bs, isSpaceB x) (hb : isSpaceB b = false) :
    skipSpaces ⟨buf, (p : Int)⟩ = ⟨buf, ((p + bs.length : Nat) : Int)⟩ := by
  unfold skipSpaces
  have hp : p < buf.length := by
    by_contra hle
    push_neg at hle
    rw [List.drop_eq_nil_of_le hle] at hbuf
    cases bs <;> simp at hbuf
  have hlen : bs.length + 1 ≤ (ReaderGo.mk buf (p : Int)).lenGo.toNat + 1 := by
    rw [lenGo_toNat_eq hp]
    have := congrArg List.length hbuf
    simp [List.length_drop] at this
    omega
  exact skipSpacesF_run bs _ p hsp hb hlen hbuf

theorem skipBlankF_run :
    ∀ (bs : List Nat) (fuel : Nat) {buf : List Nat} (p : Nat) {b : Nat}
      {rest : List Nat},
    (∀ x ∈ bs, isBlankB x) → isBlankB b = false → bs.length + 1 ≤ fuel →
    buf.drop p = bs ++ b :: rest →
    skipBlankF fuel ⟨buf, (p : Int)⟩ = ⟨buf, ((p + bs.length : Nat) : Int)⟩ := by
  intro bs
  induction bs with
  | nil =>
      intro fuel buf p b rest _ hb hfuel hbuf
      obtain ⟨f, rfl⟩ : ∃ f, fuel = f + 1 := ⟨fuel - 1, by omega⟩
      simp only [List.nil_append] at hbuf
      have hp : p < buf.length := drop_head_lt hbuf
      obtain ⟨hrb, -⟩ := readByteD_pos hbuf
      simp only [skipBlankF, lenGo_pos_of_lt hp, if_pos, hrb, hb,
        Bool.false_eq_true, if_false, unreadByte_succ]
      simp
  | cons x bs ih =>
      intro fuel buf p b rest hsp hb hfuel hbuf
      obtain ⟨f, rfl⟩ : ∃ f, fuel = f + 1 := ⟨fuel - 1, by omega⟩
      simp only [List.cons_append] at hbuf
      have hp : p < buf.length := drop_head_lt hbuf
      obtain ⟨hrb, hrest⟩ := readByteD_pos hbuf
      have hx : isBlankB x := hsp x (List.mem_cons_self _ _)
      have hcast : ((p : Int) + 1) = ((p + 1 : Nat) : Int) := by push_cast; ring
      have := ih f (p + 1) (fun y hy => hsp y (List.mem_cons_of_mem _ hy)) hb
        (by simpa using hfuel) hrest
      simp only [skipBlankF, lenGo_pos_of_lt hp, if_pos, hrb, hx, if_true,
        hcast, this]
      congr 1
      push_cast [List.length_cons]
      ring

theorem skipBlank_run {bs : List Nat} {buf : List Nat} {p b : Nat}
    {rest : List Nat}
    (hbuf : buf.drop p = bs ++ b :: rest)
    (hsp : ∀ x ∈ bs, isBlankB x) (hb : isBlankB b = false) :
    skipBlank ⟨buf, (p : Int)⟩ = ⟨buf, ((p + bs.length : Nat) : Int)⟩ := by
  unfold skipBlank
  have hp : p < buf.length := by
    by_contra hle
    push_neg at hle
    rw [List.drop_eq_nil_of_le hle] at hbuf
    cases bs <;> simp at hbuf
  have hlen : bs.length + 1 ≤ (ReaderGo.mk buf (p : Int)).lenGo.toNat + 1 := by
    rw [lenGo_toNat_eq hp]
    have := congrArg List.length hbuf
    simp [List.length_drop] at this
    omega
  exact skipBlankF_run bs _ p hsp hb hlen hbuf

theorem scanDigitsF_run :
    ∀ (ds : List Nat) (fuel : Nat) (acc : List Nat) {buf : List Nat} (p : Nat)
      {b : Nat} {rest : List Nat},
    (∀ d ∈ ds, isDigitB d) → isDigitB b = false → ds.length + 1 ≤ fuel →
    buf.drop p = ds ++ b :: rest →
    scanDigitsF fuel acc ⟨buf, (p : Int)⟩ =
      (acc ++ ds, ⟨buf, ((p + ds.length : Nat) : Int)⟩) := by
  intro ds
  induction ds with
  | nil =>
      intro fuel acc buf p b rest _ hb hfuel hbuf
      obtain ⟨f, rfl⟩ : ∃ f, fuel = f + 1 := ⟨fuel - 1, by omega⟩
      simp only [List.nil_append] at hbuf
      have hp : p < buf.length := drop_head_lt hbuf
      obtain ⟨hrb, -⟩ := readByteD_pos hbuf
      simp only [scanDigitsF, lenGo_pos_of_lt hp, if_pos, hrb, hb,
        Bool.false_eq_true, if_false, unreadByte_succ]
      simp
  | cons x ds ih =>
      intro fuel acc buf p b rest hdig hb hfuel hbuf
      obtain ⟨f, rfl⟩ : ∃ f, fuel = f + 1 := ⟨fuel - 1, by omega⟩
      simp only [List.cons_append] at hbuf
      have hp : p < buf.length := drop_head_lt hbuf
      obtain ⟨hrb, hrest⟩ := readByteD_pos hbuf
      have hx : isDigitB x := hdig x (List.mem_cons_self _ _)
      have hcast : ((p : Int) + 1) = ((p + 1 : Nat) : Int) := by push_cast; ring
      have := ih f (acc ++ [x]) (p + 1)
        (fun y hy => hdig y (List.mem_cons_of_mem _ hy)) hb
        (by simpa using hfuel) hrest
      simp only [scanDigitsF, lenGo_pos_of_lt hp, if_pos, hrb, hx, if_true,
        hcast, this]
      rw [Prod.mk.injEq]
      refine ⟨by simp, ?_⟩
      congr 1
      push_cast [List.length_cons]
      ring

theorem scanTokenF_run :
    ∀ (cs : List Nat) (fuel : Nat) (acc : List Nat) {buf : List Nat} (p : Nat)
      {b : Nat} {rest : List Nat},
    (∀ c ∈ cs, isBlankB c = false) → isBlankB b → cs.length + 1 ≤ fuel →
    buf.drop p = cs ++ b :: rest →
    scanTokenF fuel acc ⟨buf, (p : Int)⟩ =
      (acc ++ cs, ⟨buf, ((p + cs.length : Nat) : Int)⟩) := by
  intro cs
  induction cs with
  | nil =>
      intro fuel acc buf p b rest _ hb hfuel hbuf
      obtain ⟨f, rfl⟩ : ∃ f, fuel = f + 1 := ⟨fuel - 1, by omega⟩
      simp only [List.nil_append] at hbuf
      have hp : p < buf.length := drop_head_lt hbuf
      obtain ⟨hrb, -⟩ := readByteD_pos hbuf
      simp only [scanTokenF, lenGo_pos_of_lt hp, if_pos, hrb, hb, if_true,
        unreadByte_succ]
      simp
  | cons x cs ih =>
      intro fuel acc buf p b rest hnb hb hfuel hbuf
      obtain ⟨f, rfl⟩ : ∃ f, fuel = f + 1 := ⟨fuel - 1, by omega⟩
      simp only [List.cons_append] at hbuf
      have hp : p < buf.length := drop_head_lt hbuf
      obtain ⟨hrb, hrest⟩ := readByteD_pos hbuf
      have hx : isBlankB x = false := hnb x (List.mem_cons_self _ _)
      have hcast : ((p : Int) + 1) = ((p + 1 : Nat) : Int) := by push_cast; ring
      have := ih f (acc ++ [x]) (p + 1)
        (fun y hy => hnb y (List.mem_cons_of_mem _ hy)) hb
        (by simpa using hfuel) hrest
      simp only [scanTokenF, lenGo_pos_of_lt hp, if_pos, hrb, hx,
        Bool.false_eq_true, if_false, hcast, this]
      rw [Prod.mk.injEq]
      refine ⟨by simp, ?_⟩
      congr 1
      push_cast [List.length_cons]
      ring

theorem isSpaceB_of_isDigitB {d : Nat} (h : isDigitB d) : isSpaceB d = false := by
  simp only [isDigitB, decide_eq_true_eq] at h
  simp only [isSpaceB, decide_eq_false_iff_not]
  omega

theorem isBlankB_of_isDigitB {d : Nat} (h : isDigitB d) : isBlankB d = false := by
  simp only [isDigitB, decide_eq_true_eq] at h
  simp only [isBlankB, isSpaceB, Bool.or_eq_false_iff, decide_eq_false_iff_not]
  omega

theorem scanInt_run {sps ds : List Nat} {buf : List Nat} {p b : Nat}
    {rest : List Nat}
    (hbuf : buf.drop p = sps ++ ds ++ b :: rest)
    (hsp : ∀ x ∈ sps, isSpaceB x) (hdig : ∀ d ∈ ds, isDigitB d) (hne : ds ≠ [])
    (hb : isDigitB b = false) :
    scanInt ⟨buf, (p : Int)⟩ =
      some (natFromDigits ds, ⟨buf, ((p + sps.length + ds.length : Nat) : Int)⟩) := by
  obtain ⟨d0, ds', rfl⟩ : ∃ d0 ds', ds = d0 :: ds' := by
    cases ds with
    | nil => exact absurd rfl hne
    | cons a l => exact ⟨a, l, rfl⟩
  have hd0 : isDigitB d0 := hdig d0 (List.mem_cons_self _ _)
  have h0 : buf.drop p = sps ++ (d0 :: (ds' ++ b :: rest)) := by
    simpa [List.append_assoc] using hbuf
  have hsk := skipSpaces_run h0 hsp (isSpaceB_of_isDigitB hd0)
  have hdrop : buf.drop (p + sps.length) = (d0 :: ds') ++ b :: rest := by
    have h1 : buf.drop p = sps ++ ((d0 :: ds') ++ b :: rest) := by
      simpa [List.append_assoc] using hbuf
    have := drop_of_append sps h1
    simpa using this
  have hplen : p + sps.length < buf.length := drop_head_lt (by simpa using hdrop)
  have hfuel : (d0 :: ds').length + 1 ≤
      (ReaderGo.mk buf ((p + sps.length : Nat) : Int)).lenGo.toNat + 1 := by
    rw [lenGo_toNat_eq hplen]
    have := congrArg List.length hdrop
    simp [List.length_drop] at this
    simp only [List.length_cons] at this ⊢
    omega
  have hsc := scanDigitsF_run (d0 :: ds') _ [] (p + sps.length) hdig hb hfuel hdrop
  simp only [scanInt, hsk, hsc, List.nil_append]
  rw [if_neg (by simp)]

theorem scanToken_run {sps cs : List Nat} {buf : List Nat} {p b : Nat}
    {rest : List Nat}
    (hbuf : buf.drop p = sps ++ cs ++ b :: rest)
    (hsp : ∀ x ∈ sps, isSpaceB x) (hnb : ∀ c ∈ cs, isBlankB c = false)
    (hne : cs ≠ []) (hb : isBlankB b) :
    scanToken ⟨buf, (p : Int)⟩ =
      (cs, ⟨buf, ((p + sps.length + cs.length : Nat) : Int)⟩) := by
  obtain ⟨c0, cs', rfl⟩ : ∃ c0 cs', cs = c0 :: cs' := by
    cases cs with
    | nil => exact absurd rfl hne
    | cons a l => exact ⟨a, l, rfl⟩
  have hc0 : isBlankB c0 = false := hnb c0 (List.mem_cons_self _ _)
  have hc0s : isSpaceB c0 = false := by
    simp only [isBlankB, Bool.or_eq_false_iff] at hc0
    exact hc0.1
  have h0 : buf.drop p = sps ++ (c0 :: (cs' ++ b :: rest)) := by
    simpa [List.append_assoc] using hbuf
  have hsk := skipSpaces_run h0 hsp hc0s
  have hdrop : buf.drop (p + sps.length) = (c0 :: cs') ++ b :: rest := by
    have h1 : buf.drop p = sps ++ ((c0 :: cs') ++ b :: rest) := by
      simpa [List.append_assoc] using hbuf
    have := drop_of_append sps h1
    simpa using this
  have hplen : p + sps.length < buf.length := drop_head_lt (by simpa using hdrop)
  have hfuel : (c0 :: cs').length + 1 ≤
      (ReaderGo.mk buf ((p + sps.length : Nat) : Int)).lenGo.toNat + 1 := by
    rw [lenGo_toNat_eq hplen]
    have := congrArg List.length hdrop
    simp [List.length_drop] at this
    simp only [List.length_cons] at this ⊢
    omega
  have hsc := scanTokenF_run (c0 :: cs') _ [] (p + sps.length) hnb hb hfuel hdrop
  simp only [scanToken, hsk, hsc, List.nil_append]

theorem expectCRLF_run {buf : List Nat} {p : Nat} {rest : List Nat}
    (hbuf : buf.drop p = 13 :: 10 :: rest) :
    expectCRLF ⟨buf, (p : Int)⟩ = some ⟨buf, ((p + 2 : Nat) : Int)⟩ := by
  obtain ⟨h1, h2⟩ := readByteD_pos hbuf
  obtain ⟨h3, -⟩ := readByteD_pos h2
  have hcast : ((p : Int) + 1) = ((p + 1 : Nat) : Int) := by push_cast; ring
  simp only [expectCRLF, h1, hcast, h3]
  rw [if_pos ⟨trivial, trivial⟩]
  have h4 : (((p + 1 : Nat) : Int)) + 1 = ((p + 2 : Nat) : Int) := by push_cast; ring
  rw [h4]

theorem natDecF_spec :
    ∀ (fuel n : Nat), n < fuel →
    (natDecF fuel n ≠ [] ∧ (∀ d ∈ natDecF fuel n, isDigitB d) ∧
     ∀ acc, List.foldl (fun a d => a * 10 + (d - 48)) acc (natDecF fuel n) =
       acc * 10 ^ (natDecF fuel n).length + n) := by
  intro fuel
  induction fuel with
  | zero => intro n h; omega
  | succ fuel ih =>
      intro n hn
      by_cases h10 : n < 10
      · refine ⟨by simp [natDecF, h10], ?_, ?_⟩
        · intro d hd
          simp [natDecF, h10] at hd
          simp only [isDigitB, hd, decide_eq_true_eq]
          omega
        · intro acc
          simp [natDecF, h10]
      · have hrec : n / 10 < fuel := by
          have : n / 10 < n := Nat.div_lt_self (by omega) (by omega)
          omega
        obtain ⟨hne, hdig, hfold⟩ := ih (n / 10) hrec
        refine ⟨by simp [natDecF, h10], ?_, ?_⟩
        · intro d hd
          simp only [natDecF, h10, if_false, List.mem_append,
            List.mem_singleton] at hd
          rcases hd with hd | hd
          · exact hdig d hd
          · subst hd
            simp [isDigitB]
            omega
        · intro acc
          simp only [natDecF, h10, if_false, List.foldl_append, hfold,
            List.foldl_cons, List.foldl_nil, List.length_append,
            List.length_singleton]
          have hmod : 48 + n % 10 - 48 = n % 10 := by omega
          rw [hmod]
          have hpow : acc * 10 ^ ((natDecF fuel (n / 10)).length + 1) =
              (acc * 10 ^ (natDecF fuel (n / 10)).length) * 10 := by ring
          rw [hpow]
          set A := acc * 10 ^ (natDecF fuel (n / 10)).length
          have hg : (A + n / 10) * 10 = A * 10 + (n / 10) * 10 := by ring
          rw [hg]
          omega

theorem natDec_ne_nil (n : Nat) : natDec n ≠ [] :=
  (natDecF_spec (n + 1) n (by omega)).1

theorem natDec_digits (n : Nat) : ∀ d ∈ natDec n, isDigitB d :=
  (natDecF_spec (n + 1) n (by omega)).2.1

theorem natFromDigits_natDec (n : Nat) : natFromDigits (natDec n) = n := by
  have := (natDecF_spec (n + 1) n (by omega)).2.2 0
  simpa [natFromDigits, natDec] using this

/-- Left-pad the decimal digits of `n` with zeros to width `w` (the 10-digit
offset and 5-digit generation fields of a classic xref record). -/
def padDec (w n : Nat) : List Nat :=
  List.replicate (w - (natDec n).length) 48 ++ natDec n

theorem padDec_digits (w n : Nat) : ∀ d ∈ padDec w n, isDigitB d := by
  intro d hd
  simp only [padDec, List.mem_append, List.mem_replicate] at hd
  rcases hd with ⟨-, rfl⟩ | hd
  · simp [isDigitB]
  · exact natDec_digits n d hd

theorem padDec_ne_nil (w n : Nat) : padDec w n ≠ [] := by
  simp only [padDec]
  intro h
  exact natDec_ne_nil n (List.append_eq_nil.mp h).2

theorem natFromDigits_padDec (w n : Nat) : natFromDigits (padDec w n) = n := by
  unfold natFromDigits padDec
  rw [List.foldl_append]
  have hz : ∀ k, List.foldl (fun a d => a * 10 + (d - 48)) 0
      (List.replicate k 48) = 0 := by
    intro k
    induction k with
    | zero => rfl
    | succ k ihk => simpa [List.replicate_succ] using ihk
  rw [hz]
  exact natFromDigits_natDec n

/-- One fixed-form xref record: `10-digit-offset SP 5-digit-gen SP flag CR
LF`, flag `n` (110) for in-use, `f` (102) for free. -/
def encXrefRec (rec : Nat × Nat × Bool) : List Nat :=
  padDec 10 rec.1 ++ 32 :: (padDec 5 rec.2.1 ++
    32 :: (if rec.2.2 then 110 else 102) :: 13 :: 10 :: [])

def encXrefRecs : List (Nat × Nat × Bool) → List Nat
  | [] => []
  | r :: rest => encXrefRec r ++ encXrefRecs rest

/-- Modeled from the spec's words for one classic xref subsection: every `n`
record becomes an InUse Pointer for object number `first + i` with the
recorded offset and generation; every `f` record is skipped. -/
def xrefTableSpecPointers : Int → List (Nat × Nat × Bool) → List PointerGo
  | _, [] => []
  | oid, (off, gen, inUse) :: rest =>
      (if inUse then
        [{ oid := fmtOid oid (gen : Int), owner := [], offset := (off : Int) }]
       else []) ++ xrefTableSpecPointers (oid + 1) rest

theorem xrefRecsGo_encode :
    ∀ (rs : List (Nat × Nat × Bool)) (oid : Int) (p : Nat)
      (buf trailing : List Nat),
    buf.drop p = encXrefRecs rs ++ trailing →
    xrefRecsGo rs.length oid ⟨buf, (p : Int)⟩ =
      some (xrefTableSpecPointers oid rs) := by
  intro rs
  induction rs with
  | nil => intro oid p buf trailing _; rfl
  | cons hd tl ih =>
      intro oid p buf trailing hbuf
      obtain ⟨off, gen, inUse⟩ := hd
      have hflag : isBlankB (if inUse then 110 else 102) = false := by
        cases inUse <;> simp [isBlankB, isSpaceB]
      have hbuf1 : buf.drop p = [] ++ padDec 10 off ++ 32 ::
          (padDec 5 gen ++ 32 :: (if inUse then 110 else 102) :: 13 :: 10 ::
            (encXrefRecs tl ++ trailing)) := by
        simpa [encXrefRecs, encXrefRec, List.append_assoc] using hbuf
      have hs1 := scanInt_run hbuf1 (by simp) (padDec_digits 10 off)
        (padDec_ne_nil 10 off) (by simp [isDigitB])
      have hd1 : buf.drop (p + (padDec 10 off).length) =
          32 :: (padDec 5 gen ++ 32 :: (if inUse then 110 else 102) :: 13 ::
            10 :: (encXrefRecs tl ++ trailing)) := by
        have := drop_of_append (padDec 10 off) (by simpa using hbuf1)
        simpa using this
      have hbuf2 : buf.drop (p + (padDec 10 off).length) =
          [32] ++ padDec 5 gen ++ 32 ::
            ((if inUse then 110 else 102) :: 13 :: 10 ::
              (encXrefRecs tl ++ trailing)) := by
        simpa using hd1
      have hs2 := scanInt_run hbuf2 (by simp [isSpaceB]) (padDec_digits 5 gen)
        (padDec_ne_nil 5 gen) (by simp [isDigitB])
      have hd2 : buf.drop (p + (padDec 10 off).length + 1 +
          (padDec 5 gen).length) =
          32 :: ((if inUse then 110 else 102) :: 13 :: 10 ::
            (encXrefRecs tl ++ trailing)) := by
        have := drop_of_append (32 :: padDec 5 gen) (by simpa using hbuf2)
        simp only [List.length_cons] at this
        have harith : p + (padDec 10 off).length + ((padDec 5 gen).length + 1) =
            p + (padDec 10 off).length + 1 + (padDec 5 gen).length := by omega
        rw [harith] at this
        exact this
      have hbuf3 : buf.drop (p + (padDec 10 off).length + 1 +
          (padDec 5 gen).length) =
          [32] ++ [if inUse then 110 else 102] ++ 13 ::
            (10 :: (encXrefRecs tl ++ trailing)) := by
        simpa using hd2
      have hs3 := scanToken_run hbuf3 (by simp [isSpaceB])
        (by intro c hc; simp at hc; subst hc; exact hflag)
        (by simp) (by simp [isBlankB])
      have hd3 : buf.drop (p + (padDec 10 off).length + 1 +
          (padDec 5 gen).length + 2) =
          13 :: 10 :: (encXrefRecs tl ++ trailing) := by
        have := drop_of_append [32, if inUse then 110 else 102]
          (by simpa using hbuf3)
        simpa using this
      have hs4 := expectCRLF_run hd3
      have hd4 : buf.drop (p + (padDec 10 off).length + 1 +
          (padDec 5 gen).length + 2 + 2) = encXrefRecs tl ++ trailing := by
        have := drop_of_append [13, 10] (by simpa using hd3)
        simpa using this
      have hrec := ih (oid + 1)
        (p + (padDec 10 off).length + 1 + (padDec 5 gen).length + 2 + 2)
        buf trailing hd4
      have harith2 : p + 0 + (padDec 10 off).length =
          p + (padDec 10 off).length := by omega
      have harith3 : p + (padDec 10 off).length + 1 + (padDec 5 gen).length + 1
          + 1 = p + (padDec 10 off).length + 1 + (padDec 5 gen).length + 2 := by
        omega
      simp only [List.length_cons, xrefRecsGo, hs1, List.length_nil,
        Nat.add_zero, harith2, hs2, List.length_singleton, hs3, harith3, hs4,
        hrec, natFromDigits_padDec]
      cases inUse with
      | false => simp [xrefTableSpecPointers]
      | true => simp [xrefTableSpecPointers]

/-- The bytes of a classic xref section: the `xref` keyword, one
`first n_entries` header, and the fixed-form records, followed by arbitrary
trailing bytes (for instance a further subsection). -/
def encXrefTable (first : Nat) (rs : List (Nat × Nat × Bool))
    (trailing : List Nat) : List Nat :=
  gs "xref" ++ 10 :: (natDec first ++ 32 ::
    (natDec rs.length ++ 10 :: (encXrefRecs rs ++ trailing)))

theorem drop_four_encXrefTable (first : Nat) (rs : List (Nat × Nat × Bool))
    (trailing : List Nat) :
    (encXrefTable first rs trailing).drop 4 = 10 :: (natDec first ++ 32 ::
      (natDec rs.length ++ 10 :: (encXrefRecs rs ++ trailing))) := by
  have h4 : (gs "xref").length = 4 := rfl
  unfold encXrefTable
  rw [← h4, List.drop_left]

/-- C3 (amended): at the declared offset the `xref` keyword introduces
exactly *one* subsection `first n_entries` followed by exactly `n_entries`
fixed-form records `10-digit-offset SP 5-digit-gen SP flag CR LF`; every `n`
record becomes an InUse Pointer for object `first + i` with the recorded
offset and generation, every `f` record produces no Pointer, and everything
after the `n_entries`-th record — in particular any further subsection — is
ignored (the source has no subsection loop, src/read.go:203-238). -/
theorem C3_xref_table_one_subsection (first : Nat)
    (rs : List (Nat × Nat × Bool)) (trailing : List Nat) :
    readXRefClassic ⟨encXrefTable first rs trailing, 0⟩ =
      some (xrefTableSpecPointers (first : Int) rs) := by
  have hd4 := drop_four_encXrefTable first rs trailing
  set buf := encXrefTable first rs trailing with hbuf
  have hlen4 : 4 < buf.length := by
    have := congrArg List.length hd4
    simp only [List.length_drop, List.length_cons] at this
    omega
  have hsw : (ReaderGo.mk buf 0).startsWithGo (gs "xref") = true := by
    simp only [ReaderGo.startsWithGo]
    rw [if_neg (by omega)]
    simp only [Int.toNat_zero, List.drop_zero, decide_eq_true_eq]
    exact ⟨_, rfl⟩
  have hdisc : (ReaderGo.mk buf 0).discard 4 = ⟨buf, ((4 : Nat) : Int)⟩ := by
    simp only [ReaderGo.discard]
    rw [if_neg (by omega), if_neg (by push_cast; omega)]
    rfl
  have hd5 : buf.drop 5 = natDec first ++ 32 ::
      (natDec rs.length ++ 10 :: (encXrefRecs rs ++ trailing)) := by
    have := drop_of_append [10] (by simpa using hd4)
    simpa using this
  obtain ⟨f0, ftl, hf⟩ : ∃ f0 ftl, natDec first = f0 :: ftl := by
    cases hnf : natDec first with
    | nil => exact absurd hnf (natDec_ne_nil first)
    | cons a l => exact ⟨a, l, rfl⟩
  have hf0dig : isDigitB f0 :=
    natDec_digits first f0 (by rw [hf]; exact List.mem_cons_self _ _)
  have hskip1 : skipBlank ⟨buf, ((4 : Nat) : Int)⟩ = ⟨buf, ((5 : Nat) : Int)⟩ := by
    have hsh : buf.drop 4 = [10] ++ f0 ::
        (ftl ++ 32 :: (natDec rs.length ++ 10 :: (encXrefRecs rs ++ trailing))) := by
      rw [hd4, hf]
      simp
    have := skipBlank_run hsh (by simp [isBlankB]) (isBlankB_of_isDigitB hf0dig)
    simpa using this
  have hd5b : buf.drop 5 = [] ++ natDec first ++ 32 ::
      (natDec rs.length ++ 10 :: (encXrefRecs rs ++ trailing)) := by
    simpa using hd5
  have hs1 := scanInt_run hd5b (by simp) (natDec_digits first)
    (natDec_ne_nil first) (by simp [isDigitB])
  have hd6 : buf.drop (5 + (natDec first).length) = 32 ::
      (natDec rs.length ++ 10 :: (encXrefRecs rs ++ trailing)) := by
    have := drop_of_append (natDec first) (by simpa using hd5)
    simpa using this
  have hd6b : buf.drop (5 + (natDec first).length) = [32] ++ natDec rs.length
      ++ 10 :: (encXrefRecs rs ++ trailing) := by
    simpa using hd6
  have hs2 := scanInt_run hd6b (by simp [isSpaceB]) (natDec_digits rs.length)
    (natDec_ne_nil rs.length) (by simp [isDigitB])
  have hd7 : buf.drop (5 + (natDec first).length + 1 +
      (natDec rs.length).length) = 10 :: (encXrefRecs rs ++ trailing) := by
    have := drop_of_append (32 :: natDec rs.length) (by simpa using hd6)
    simp only [List.length_cons] at this
    have harith : 5 + (natDec first).length + ((natDec rs.length).length + 1) =
        5 + (natDec first).length + 1 + (natDec rs.length).length := by omega
    rw [harith] at this
    exact this
  simp only [readXRefClassic, hsw, Bool.not_true, Bool.false_eq_true,
    if_false, hdisc, hskip1, hs1, List.length_nil, Nat.add_zero, hs2,
    List.length_singleton, natFromDigits_natDec]
  cases rs with
  | nil => rfl
  | cons r0 rtl =>
      obtain ⟨off0, gen0, inUse0⟩ := r0
      obtain ⟨e0, etl, he⟩ : ∃ e0 etl, padDec 10 off0 = e0 :: etl := by
        cases hpe : padDec 10 off0 with
        | nil => exact absurd hpe (padDec_ne_nil 10 off0)
        | cons a l => exact ⟨a, l, rfl⟩
      have he0dig : isDigitB e0 :=
        padDec_digits 10 off0 e0 (by rw [he]; exact List.mem_cons_self _ _)
      have hshape : buf.drop (5 + (natDec first).length + 1 +
          (natDec ((off0, gen0, inUse0) :: rtl).length).length) =
          [10] ++ e0 :: (etl ++ 32 :: (padDec 5 gen0 ++
            32 :: (if inUse0 then 110 else 102) :: 13 :: 10 ::
              (encXrefRecs rtl ++ trailing))) := by
        rw [hd7]
        simp [encXrefRecs, encXrefRec, he, List.append_assoc]
      have hskip2 := skipBlank_run hshape (by simp [isBlankB])
        (isBlankB_of_isDigitB he0dig)
      have hd8 : buf.drop (5 + (natDec first).length + 1 +
          (natDec ((off0, gen0, inUse0) :: rtl).length).length + 1) =
          encXrefRecs ((off0, gen0, inUse0) :: rtl) ++ trailing := by
        have := drop_of_append [10] (by simpa using hd7)
        simpa using this
      have hrecs := xrefRecsGo_encode ((off0, gen0, inUse0) :: rtl)
        (first : Int) _ buf trailing hd8
      simp only [List.length_singleton] at hskip2
      rw [hskip2, hrecs]
      simp

/- ------------------------------------------------------------------ -/
/-  C7: numbers and the reference lookahead (src/dict.go:227-283)      -/
/- ------------------------------------------------------------------ -/

/-- The digit loop of `parseDecimal` (src/dict.go:274-281): keep reading
while the byte is a digit or a dot, put the failing byte back.  The bound is
instantiated with `Len + 1`, which the loop (advancing one byte per kept
character) can never exhaust. -/
def parseDecimalF : Nat → List Nat → ReaderGo → List Nat × ReaderGo
  | 0, acc, r => (acc, r)
  | fuel + 1, acc, r =>
      let (b, r') := r.readByteD
      if isDigitB b || b = 46 then parseDecimalF fuel (acc ++ [b]) r'
      else (acc, r'.unreadByte)

/-- `parseDecimal` (src/dict.go:270-283): the first byte is consumed and kept
unconditionally, then digits and dots. -/
def parseDecimal (r : ReaderGo) : List Nat × ReaderGo :=
  let (b, r1) := r.readByteD
  parseDecimalF (r1.lenGo.toNat + 1) [b] r1

/-- `parseReference` (src/dict.go:250-268): remember `Tell() - 1` (the
position of the space the caller just consumed), scan a decimal token, then
require a space and the byte `R`; on failure seek back to the remembered
position. -/
def parseReferenceM (r : ReaderGo) : Option (List Nat) × ReaderGo :=
  let tell := if r.tellGo > 0 then r.tellGo - 1 else r.tellGo
  let (str, r1) := parseDecimal r
  let (b, r2) := r1.readByteD
  if b ≠ 32 then (none, { r2 with ptr := tell })
  else
    let (b2, r3) := r2.readByteD
    if b2 ≠ 82 then (none, { r3 with ptr := tell })
    else (some str, r3)

/-- `strconv.ParseInt(s, 10, 64)`: optional sign, a non-empty digit run,
error on any other byte or on 64-bit overflow. -/
def parseIntGo (s : List Nat) : Option Int :=
  match s with
  | [] => none
  | b :: rest =>
      let neg := b = 45
      let ds := if b = 45 || b = 43 then rest else b :: rest
      if ds = [] then none
      else if ¬ ds.all (fun d => isDigitB d) then none
      else if neg then
        (if natFromDigits ds ≤ 2 ^ 63 then some (-(natFromDigits ds : Int))
         else none)
      else
        (if natFromDigits ds ≤ 2 ^ 63 - 1 then some ((natFromDigits ds : Int))
         else none)

/-- The domain of `strconv.ParseFloat` restricted to the alphabet the decimal
scanner can produce (sign, digits, dots — no exponents): an optional sign,
then a non-empty digit-and-dot run with at least one digit and at most one
dot.  The float value itself is not modeled; `vReal` carries the text. -/
def floatShapeOk (s : List Nat) : Bool :=
  match s with
  | [] => false
  | b :: rest =>
      let ds := if b = 45 || b = 43 then rest else b :: rest
      ¬ ds.isEmpty && (ds.all (fun d => isDigitB d || d = 46) &&
        (ds.any (fun d => isDigitB d) && ds.count 46 ≤ 1))

def parseFloatGo (s : List Nat) : Option GoValue :=
  if floatShapeOk s then some (.vReal s) else none

/-- `parseNumber` (src/dict.go:227-248): scan a decimal token; if the next
byte is a space, attempt the `G R` lookahead and on success return the
reference string `"N/G"`; otherwise (after the rewind, or with the non-space
byte put back) parse the token as a signed 64-bit integer, falling back to a
64-bit float. -/
def parseNumberM (r : ReaderGo) : Option (GoValue × ReaderGo) :=
  let (str, r1) := parseDecimal r
  let (b, r2) := r1.readByteD
  if b = 32 then
    match parseReferenceM r2 with
    | (some rev, r3) => some (.vStr (str ++ 47 :: rev), r3)
    | (none, r3) =>
        match parseIntGo str with
        | some n => some (.vInt n, r3)
        | none => (parseFloatGo str).map (fun v => (v, r3))
  else
    let r3 := r2.unreadByte
    match parseIntGo str with
    | some n => some (.vInt n, r3)
    | none => (parseFloatGo str).map (fun v => (v, r3))

/-- C7 counterexample: on `5 -3 R` the second token is `-3`, a *negative*
integer, so per the claim the lookahead must fail, the cursor rewind, and the
value be the integer 5.  The code's lookahead scanner accepts the sign
(src/dict.go:270-283 reads the first byte unconditionally) and returns the
Reference string joining "5" and "-3" with a slash. -/
theorem C7_counterexample :
    (parseNumberM ⟨gs "5 -3 R", 0⟩).map Prod.fst =
      some (.vStr (gs "5/-3")) ∧
    (parseNumberM ⟨gs "5 -3 R", 0⟩).map Prod.fst ≠ some (.vInt 5) := by
  refine ⟨rfl, fun h => ?_⟩
  rw [show (parseNumberM ⟨gs "5 -3 R", 0⟩).map Prod.fst =
    some (GoValue.vStr (gs "5/-3")) from rfl] at h
  injection h with h1
  exact GoValue.noConfusion h1

theorem parseDecimalF_run :
    ∀ (ds : List Nat) (fuel : Nat) (acc : List Nat) {buf : List Nat} (p : Nat)
      {b : Nat} {rest : List Nat},
    (∀ d ∈ ds, (isDigitB d || d = 46) = true) →
    (isDigitB b || b = 46) = false → ds.length + 1 ≤ fuel →
    buf.drop p = ds ++ b :: rest →
    parseDecimalF fuel acc ⟨buf, (p : Int)⟩ =
      (acc ++ ds, ⟨buf, ((p + ds.length : Nat) : Int)⟩) := by
  intro ds
  induction ds with
  | nil =>
      intro fuel acc buf p b rest _ hb hfuel hbuf
      obtain ⟨f, rfl⟩ : ∃ f, fuel = f + 1 := ⟨fuel - 1, by omega⟩
      simp only [List.nil_append] at hbuf
      have hp : p < buf.length := drop_head_lt hbuf
      obtain ⟨hrb, -⟩ := readByteD_pos hbuf
      simp only [parseDecimalF, hrb, hb, Bool.false_eq_true, if_false,
        unreadByte_succ]
      simp
  | cons x ds ih =>
      intro fuel acc buf p b rest hdig hb hfuel hbuf
      obtain ⟨f, rfl⟩ : ∃ f, fuel = f + 1 := ⟨fuel - 1, by omega⟩
      simp only [List.cons_append] at hbuf
      have hp : p < buf.length := drop_head_lt hbuf
      obtain ⟨hrb, hrest⟩ := readByteD_pos hbuf
      have hx : (isDigitB x || x = 46) = true := hdig x (List.mem_cons_self _ _)
      have hcast : ((p : Int) + 1) = ((p + 1 : Nat) : Int) := by push_cast; ring
      have := ih f (acc ++ [x]) (p + 1)
        (fun y hy => hdig y (List.mem_cons_of_mem _ hy)) hb
        (by simpa using hfuel) hrest
      simp only [parseDecimalF, hrb, hx, if_true, hcast, this]
      rw [Prod.mk.injEq]
      refine ⟨by simp, ?_⟩
      congr 1
      push_cast [List.length_cons]
      ring

theorem parseDecimal_run {buf : List Nat} {p x : Nat} {ds : List Nat}
    {b : Nat} {rest : List Nat}
    (hbuf : buf.drop p = x :: (ds ++ b :: rest))
    (hds : ∀ d ∈ ds, (isDigitB d || d = 46) = true)
    (hb : (isDigitB b || b = 46) = false) :
    parseDecimal ⟨buf, (p : Int)⟩ =
      (x :: ds, ⟨buf, ((p + 1 + ds.length : Nat) : Int)⟩) := by
  obtain ⟨hrb, hrest⟩ := readByteD_pos hbuf
  have hp1len : p + 1 ≤ buf.length := by
    have := congrArg List.length hbuf
    simp [List.length_drop] at this
    omega
  have hfuel : ds.length + 1 ≤
      (ReaderGo.mk buf ((p + 1 : Nat) : Int)).lenGo.toNat + 1 := by
    have hdlen := congrArg List.length hrest
    simp [List.length_drop] at hdlen
    simp only [ReaderGo.lenGo]
    split
    · omega
    · omega
  have hcast : ((p : Int) + 1) = ((p + 1 : Nat) : Int) := by push_cast; ring
  have hrun := parseDecimalF_run ds _ [x] (p + 1) hds hb hfuel hrest
  simp only [parseDecimal, hrb, hcast, hrun]
  rw [Prod.mk.injEq]
  exact ⟨by simp, rfl⟩

theorem parseReferenceM_accept {buf : List Nat} {p g0 : Nat}
    {gtl rest : List Nat}
    (hbuf : buf.drop p = g0 :: (gtl ++ 32 :: 82 :: rest))
    (hg : ∀ d ∈ gtl, (isDigitB d || d = 46) = true) :
    parseReferenceM ⟨buf, (p : Int)⟩ =
      (some (g0 :: gtl), ⟨buf, ((p + gtl.length + 3 : Nat) : Int)⟩) := by
  have hdec := parseDecimal_run hbuf hg (by decide)
  have hd1 : buf.drop (p + 1 + gtl.length) = 32 :: 82 :: rest := by
    have := drop_of_append (g0 :: gtl) (by simpa using hbuf)
    simp only [List.length_cons] at this
    have harith : p + (gtl.length + 1) = p + 1 + gtl.length := by omega
    rw [harith] at this
    exact this
  obtain ⟨hrb1, hrest1⟩ := readByteD_pos hd1
  obtain ⟨hrb2, -⟩ := readByteD_pos hrest1
  have hc1 : (((p + 1 + gtl.length : Nat) : Int) + 1) =
      ((p + 1 + gtl.length + 1 : Nat) : Int) := by push_cast; ring
  simp only [parseReferenceM, hdec, hrb1, hc1, hrb2]
  rw [if_neg (by simp), if_neg (by simp)]
  rw [Prod.mk.injEq]
  refine ⟨rfl, ?_⟩
  congr 2
  push_cast
  ring

theorem parseReferenceM_reject {buf : List Nat} {p g0 c : Nat}
    {gtl rest : List Nat}
    (hbuf : buf.drop p = g0 :: (gtl ++ c :: rest))
    (hg : ∀ d ∈ gtl, (isDigitB d || d = 46) = true)
    (hc : (isDigitB c || c = 46) = false) (hcs : c ≠ 32) (hp : 1 ≤ p) :
    parseReferenceM ⟨buf, (p : Int)⟩ =
      (none, ⟨buf, ((p - 1 : Nat) : Int)⟩) := by
  have hdec := parseDecimal_run hbuf hg hc
  have hd1 : buf.drop (p + 1 + gtl.length) = c :: rest := by
    have := drop_of_append (g0 :: gtl) (by simpa using hbuf)
    simp only [List.length_cons] at this
    have harith : p + (gtl.length + 1) = p + 1 + gtl.length := by omega
    rw [harith] at this
    exact this
  obtain ⟨hrb1, -⟩ := readByteD_pos hd1
  simp only [parseReferenceM, hdec, hrb1, ReaderGo.tellGo]
  rw [if_pos hcs, if_pos (by omega)]
  rw [Prod.mk.injEq]
  refine ⟨rfl, ?_⟩
  congr 1
  omega

theorem isDigitB_not_sign {d : Nat} (h : isDigitB d) :
    (decide (d = 45) || decide (d = 43)) = false := by
  simp only [isDigitB, decide_eq_true_eq] at h
  simp only [Bool.or_eq_false_iff, decide_eq_false_iff_not]
  omega

theorem parseIntGo_digits (ds : List Nat) (h : ∀ d ∈ ds, isDigitB d)
    (hne : ds ≠ []) (hv : natFromDigits ds < 2 ^ 63) :
    parseIntGo ds = some ((natFromDigits ds : Nat) : Int) := by
  cases ds with
  | nil => exact absurd rfl hne
  | cons d0 dtl =>
      have hd0 : isDigitB d0 := h d0 (List.mem_cons_self _ _)
      have h45 := isDigitB_not_sign hd0
      have hd045 : d0 ≠ 45 := by
        simp only [isDigitB, decide_eq_true_eq] at hd0
        omega
      simp only [parseIntGo, h45, Bool.false_eq_true, if_false]
      rw [if_neg (by simp)]
      rw [if_neg (by
        simp only [not_not, List.all_eq_true, decide_eq_true_eq]
        intro d hd
        exact h d hd)]
      rw [if_neg hd045, if_pos (by omega)]

theorem isDigitB_ne_46 {d : Nat} (h : isDigitB d) : d ≠ 46 := by
  simp only [isDigitB, decide_eq_true_eq] at h
  omega

theorem parseIntGo_dot (d0 : Nat) (dtl : List Nat)
    (hd0 : isDigitB d0) (hdot : 46 ∈ d0 :: dtl) :
    parseIntGo (d0 :: dtl) = none := by
  have h45 := isDigitB_not_sign hd0
  simp only [parseIntGo, h45, Bool.false_eq_true, if_false]
  rw [if_neg (by simp)]
  rw [if_pos (by
    simp only [List.all_eq_true, decide_eq_true_eq, not_forall]
    exact ⟨46, hdot, by simp [isDigitB]⟩)]

theorem count46_zero {ds : List Nat} (h : ∀ d ∈ ds, isDigitB d) :
    ds.count 46 = 0 := by
  rw [List.count_eq_zero]
  intro hmem
  exact isDigitB_ne_46 (h 46 hmem) rfl

theorem floatShapeOk_dot {d0 : Nat} {dtl1 ds2 : List Nat}
    (hd0 : isDigitB d0) (h1 : ∀ d ∈ dtl1, isDigitB d)
    (h2 : ∀ d ∈ ds2, isDigitB d) :
    floatShapeOk (d0 :: (dtl1 ++ 46 :: ds2)) = true := by
  have h45 := isDigitB_not_sign hd0
  have hne : d0 ≠ 46 := isDigitB_ne_46 hd0
  have hcount : (d0 :: (dtl1 ++ 46 :: ds2)).count 46 = 1 := by
    simp [List.count_cons, List.count_append, count46_zero h1,
      count46_zero h2, hne]
  simp only [floatShapeOk, h45, Bool.false_eq_true, if_false,
    Bool.and_eq_true, hcount]
  refine ⟨by simp, ?_, ?_, by simp⟩
  · simp only [List.all_eq_true]
    intro d hd
    simp only [List.mem_cons, List.mem_append, List.mem_cons] at hd
    rcases hd with rfl | hd | rfl | hd
    · simp [hd0]
    · simp [h1 d hd]
    · simp
    · simp [h2 d hd]
  · simp only [List.any_eq_true]
    exact ⟨d0, List.mem_cons_self _ _, by simp [hd0]⟩

/-- C7 (amended): `parse_value` routes digit- or sign-led input to
`parseNumber`.  After a decimal token and a space, the lookahead scanner
accepts as the second token *any* byte followed by a maximal run of digits
and dots — in particular a negative or real second token, not only a
non-negative integer — and the pattern succeeds exactly when a space and `R`
follow, yielding the Reference; when the byte after the second token is not
a space, the cursor is rewound to the consumed space and the value is the
first token parsed as a signed 64-bit integer, or handed to the 64-bit float
parser when it contains a dot. -/
theorem C7_number_and_reference :
    (∀ (n0 g0 : Nat) (ntl gtl rest : List Nat),
      (∀ d ∈ ntl, (isDigitB d || d = 46) = true) →
      (∀ d ∈ gtl, (isDigitB d || d = 46) = true) →
      parseNumberM ⟨n0 :: (ntl ++ 32 :: g0 :: (gtl ++ 32 :: 82 :: rest)), 0⟩ =
        some (.vStr ((n0 :: ntl) ++ 47 :: g0 :: gtl),
          ⟨n0 :: (ntl ++ 32 :: g0 :: (gtl ++ 32 :: 82 :: rest)),
           ((ntl.length + gtl.length + 5 : Nat) : Int)⟩)) ∧
    (∀ (n0 g0 c : Nat) (ntl gtl rest : List Nat),
      isDigitB n0 → (∀ d ∈ ntl, isDigitB d) →
      natFromDigits (n0 :: ntl) < 2 ^ 63 →
      (∀ d ∈ gtl, (isDigitB d || d = 46) = true) →
      (isDigitB c || c = 46) = false → c ≠ 32 →
      parseNumberM ⟨n0 :: (ntl ++ 32 :: g0 :: (gtl ++ c :: rest)), 0⟩ =
        some (.vInt ((natFromDigits (n0 :: ntl) : Nat) : Int),
          ⟨n0 :: (ntl ++ 32 :: g0 :: (gtl ++ c :: rest)),
           ((ntl.length + 1 : Nat) : Int)⟩)) ∧
    (∀ (d0 : Nat) (dtl1 ds2 rest : List Nat),
      isDigitB d0 → (∀ d ∈ dtl1, isDigitB d) → (∀ d ∈ ds2, isDigitB d) →
      parseNumberM ⟨d0 :: ((dtl1 ++ 46 :: ds2) ++ 41 :: rest), 0⟩ =
        some (.vReal (d0 :: (dtl1 ++ 46 :: ds2)),
          ⟨d0 :: ((dtl1 ++ 46 :: ds2) ++ 41 :: rest),
           ((dtl1.length + ds2.length + 2 : Nat) : Int)⟩)) := by
  refine ⟨?_, ?_, ?_⟩
  · intro n0 g0 ntl gtl rest hntl hgtl
    set buf := n0 :: (ntl ++ 32 :: g0 :: (gtl ++ 32 :: 82 :: rest)) with hbufdef
    have hsh : buf.drop 0 = n0 :: (ntl ++ 32 ::
        (g0 :: (gtl ++ 32 :: 82 :: rest))) := by
      simp [hbufdef]
    have hdec := parseDecimal_run hsh hntl (by decide)
    have hd1 : buf.drop (1 + ntl.length) = 32 :: g0 :: (gtl ++ 32 :: 82 :: rest) := by
      have hsh2 : buf.drop 0 = (n0 :: ntl) ++
          (32 :: g0 :: (gtl ++ 32 :: 82 :: rest)) := by
        simp [hbufdef]
      have := drop_of_append (n0 :: ntl) hsh2
      simp only [List.length_cons] at this
      have harith : 0 + (ntl.length + 1) = 1 + ntl.length := by omega
      rw [harith] at this
      exact this
    obtain ⟨hrb, hrest⟩ := readByteD_pos hd1
    have href := parseReferenceM_accept hrest hgtl
    have hcast : (((1 + ntl.length : Nat) : Int) + 1) =
        ((1 + ntl.length + 1 : Nat) : Int) := by push_cast; ring
    have hdec0 : parseDecimal ⟨buf, (0 : Int)⟩ =
        (n0 :: ntl, ⟨buf, ((1 + ntl.length : Nat) : Int)⟩) := by
      simpa using hdec
    simp only [parseNumberM, hdec0, hrb, hcast, href]
    rw [if_pos trivial]
    rw [Option.some.injEq, Prod.mk.injEq]
    refine ⟨by simp, ?_⟩
    congr 1
    omega
  · intro n0 g0 c ntl gtl rest hn0 hntl hlt hgtl hc hcs
    set buf := n0 :: (ntl ++ 32 :: g0 :: (gtl ++ c :: rest)) with hbufdef
    have hntl2 : ∀ d ∈ ntl, (isDigitB d || d = 46) = true := by
      intro d hd
      simp [hntl d hd]
    have hsh : buf.drop 0 = n0 :: (ntl ++ 32 ::
        (g0 :: (gtl ++ c :: rest))) := by
      simp [hbufdef]
    have hdec := parseDecimal_run hsh hntl2 (by decide)
    have hd1 : buf.drop (1 + ntl.length) = 32 :: g0 :: (gtl ++ c :: rest) := by
      have hsh2 : buf.drop 0 = (n0 :: ntl) ++
          (32 :: g0 :: (gtl ++ c :: rest)) := by
        simp [hbufdef]
      have := drop_of_append (n0 :: ntl) hsh2
      simp only [List.length_cons] at this
      have harith : 0 + (ntl.length + 1) = 1 + ntl.length := by omega
      rw [harith] at this
      exact this
    obtain ⟨hrb, hrest⟩ := readByteD_pos hd1
    have href := parseReferenceM_reject hrest hgtl hc hcs (by omega)
    have hcast : (((1 + ntl.length : Nat) : Int) + 1) =
        ((1 + ntl.length + 1 : Nat) : Int) := by push_cast; ring
    have hdec0 : parseDecimal ⟨buf, (0 : Int)⟩ =
        (n0 :: ntl, ⟨buf, ((1 + ntl.length : Nat) : Int)⟩) := by
      simpa using hdec
    have hint := parseIntGo_digits (n0 :: ntl)
      (by intro d hd
          rcases List.mem_cons.mp hd with rfl | hd
          · exact hn0
          · exact hntl d hd) (by simp) hlt
    simp only [parseNumberM, hdec0, hrb, hcast, href, hint]
    rw [if_pos trivial]
    rw [Option.some.injEq, Prod.mk.injEq]
    refine ⟨rfl, ?_⟩
    congr 1
    omega
  · intro d0 dtl1 ds2 rest hd0 h1 h2
    set buf := d0 :: ((dtl1 ++ 46 :: ds2) ++ 41 :: rest) with hbufdef
    have hdd : ∀ d ∈ dtl1 ++ 46 :: ds2, (isDigitB d || d = 46) = true := by
      intro d hd
      simp only [List.mem_append, List.mem_cons] at hd
      rcases hd with hd | rfl | hd
      · simp [h1 d hd]
      · simp
      · simp [h2 d hd]
    have hsh : buf.drop 0 = d0 :: ((dtl1 ++ 46 :: ds2) ++ 41 :: rest) := by
      simp [hbufdef]
    have hdec := parseDecimal_run hsh hdd (by decide)
    have hd1 : buf.drop (1 + (dtl1 ++ 46 :: ds2).length) = 41 :: rest := by
      have hsh2 : buf.drop 0 = (d0 :: (dtl1 ++ 46 :: ds2)) ++ 41 :: rest := by
        simp [hbufdef]
      have := drop_of_append (d0 :: (dtl1 ++ 46 :: ds2)) hsh2
      simp only [List.length_cons] at this
      have harith : 0 + ((dtl1 ++ 46 :: ds2).length + 1) =
          1 + (dtl1 ++ 46 :: ds2).length := by omega
      rw [harith] at this
      exact this
    obtain ⟨hrb, -⟩ := readByteD_pos hd1
    have hint := parseIntGo_dot d0 (dtl1 ++ 46 :: ds2) hd0 (by simp)
    have hfl : parseFloatGo (d0 :: (dtl1 ++ 46 :: ds2)) =
        some (.vReal (d0 :: (dtl1 ++ 46 :: ds2))) := by
      unfold parseFloatGo
      rw [if_pos (floatShapeOk_dot hd0 h1 h2)]
    have hdec0 : parseDecimal ⟨buf, (0 : Int)⟩ =
        (d0 :: (dtl1 ++ 46 :: ds2),
         ⟨buf, ((1 + (dtl1 ++ 46 :: ds2).length : Nat) : Int)⟩) := by
      simpa using hdec
    simp only [parseNumberM, hdec0, hrb, hint, hfl]
    rw [if_neg (by omega)]
    simp only [unreadByte_succ, Option.map_some']
    rw [Option.some.injEq, Prod.mk.injEq]
    refine ⟨rfl, ?_⟩
    congr 1
    simp only [List.length_append, List.length_cons]
    omega

/-- Witness for C7: `7 1.5 R` yields the Reference joining "7" and "1.5"
(a real second token is accepted); `42 -7x` fails the lookahead at `x`,
rewinds to the space and yields the integer 42; `1.25)` contains a dot and
is handed to the float parser. -/
theorem C7_number_and_reference_witness :
    (parseNumberM ⟨gs "7 1.5 R", 0⟩ =
      some (.vStr (gs "7/1.5"), ⟨gs "7 1.5 R", ((7 : Nat) : Int)⟩)) ∧
    (parseNumberM ⟨gs "42 -7x", 0⟩ =
      some (.vInt 42, ⟨gs "42 -7x", ((2 : Nat) : Int)⟩)) ∧
    (parseNumberM ⟨gs "1.25)", 0⟩ =
      some (.vReal (gs "1.25"), ⟨gs "1.25)", ((4 : Nat) : Int)⟩)) := by
  refine ⟨?_, ?_, ?_⟩
  · exact C7_number_and_reference.1 55 49 [] [46, 53] [] (by decide) (by decide)
  · exact C7_number_and_reference.2.1 52 45 120 [50] [55] []
      (by decide) (by decide) (by decide) (by decide) (by decide) (by decide)
  · exact C7_number_and_reference.2.2 49 [] [50, 53] []
      (by decide) (by decide) (by decide)

/- ------------------------------------------------------------------ -/
/-  C1: the page-tree walk (src/doc.go:210-257)                        -/
/- ------------------------------------------------------------------ -/

def objForOid : List (List Nat × ObjectGo) → List Nat → Option ObjectGo
  | [], _ => none
  | (k, o) :: rest, oid => if k = oid then some o else objForOid rest oid

/-- The document as seen by the façade: `Document.getObjectWithOid`
(src/doc.go:303-328) binary-searches the sorted directory and parses the
object at the pointer's offset (or through the object-stream path); it is
modeled as a lookup from Oid to the already-parsed Object, returning the
zero Object for the empty Oid or a miss, exactly as the source does. -/
structure DocM where
  objs : List (List Nat × ObjectGo)

def DocM.get (d : DocM) (oid : List Nat) : ObjectGo :=
  if oid = [] then {}
  else
    match objForOid d.objs oid with
    | some o => o
    | none => {}

/-- The child loop of `Document.getPageObject` (src/doc.go:245-255): a child
that is a Page or unresolvable is returned immediately; otherwise, when
`page` is at most the child's Count, the child's `kids[page-1]` is loaded and
returned *directly* (no recursive descent); otherwise the child's Count is
subtracted and the scan continues.  `none` models the Go panic when
`kids[page-1]` is out of range. -/
def getPageLoop (d : DocM) : List (List Nat) → Int → Option ObjectGo
  | [], _ => some {}
  | k :: rest, page =>
      let obj := d.get k
      if obj.IsPage || obj.isZero then some obj
      else
        let count := obj.GetInt (gs "count")
        if page ≤ count then
          let kids2 := obj.GetStringArray (gs "kids")
          if h : 0 ≤ page - 1 ∧ (page - 1).toNat < kids2.length then
            some (d.get (kids2.get ⟨(page - 1).toNat, h.2⟩))
          else none
        else getPageLoop d rest (page - count)

/-- `Document.getPageObject` (src/doc.go:234-257). -/
def getPageObject (d : DocM) (obj : ObjectGo) (page : Int) : Option ObjectGo :=
  if obj.IsPage then some obj
  else
    let kids := obj.GetStringArray (gs "kids")
    let count := obj.GetInt (gs "count")
    if page < 1 ∨ page > count then some {}
    else getPageLoop d kids page

/-- An interior pages node with one kid. -/
def pagesNode (oid kid : String) : ObjectGo :=
  { oid := gs oid,
    dict := some [(gs "type", .vStr (gs "Pages")),
                  (gs "kids", .vArr [.vStr (gs kid)]),
                  (gs "count", .vInt 1)] }

/-- A leaf page object. -/
def pageLeaf (oid : String) : ObjectGo :=
  { oid := gs oid,
    dict := some [(gs "type", .vStr (gs "Page"))] }

/-- A three-level chain: pages root 1/0 → interior 2/0 → interior 3/0 →
the only leaf Page 4/0; every Count is 1. -/
def c1doc : DocM :=
  ⟨[(gs "1/0", pagesNode "1/0" "2/0"),
    (gs "2/0", pagesNode "2/0" "3/0"),
    (gs "3/0", pagesNode "3/0" "4/0"),
    (gs "4/0", pageLeaf "4/0")]⟩

/-- C1 counterexample: on the three-level tree, `page_count()` is 1, so the
claim demands that `get_page(1)` descend 1/0 → 2/0 → 3/0 → 4/0 and yield the
Page 4/0.  The code instead returns `kids[0]` of the first matching child
directly — the interior node 3/0, which is not a Page — so page 1 of a
1-page document does not yield a page. -/
theorem C1_counterexample :
    (getPageObject c1doc (DocM.get c1doc (gs "1/0")) 1).map ObjectGo.IsPage =
      some false ∧
    (DocM.get c1doc (gs "1/0")).GetInt (gs "count") = 1 ∧
    (DocM.get c1doc (gs "4/0")).IsPage = true ∧
    (getPageObject c1doc (DocM.get c1doc (gs "1/0")) 1).map ObjectGo.oid =
      some (gs "3/0") := by
  exact ⟨rfl, rfl, rfl, rfl⟩

def sumCounts (d : DocM) : List (List Nat) → Int
  | [] => 0
  | k :: rest => (d.get k).GetInt (gs "count") + sumCounts d rest

theorem getPageLoop_two_level (d : DocM) :
    ∀ (ks : List (List Nat)) (n : Int),
    (∀ k ∈ ks,
      (d.get k).IsPage = false ∧ (d.get k).isZero = false ∧
      (d.get k).GetInt (gs "count") =
        ((d.get k).GetStringArray (gs "kids")).length ∧
      ∀ k2 ∈ (d.get k).GetStringArray (gs "kids"),
        (d.get k2).IsPage = true) →
    1 ≤ n → n ≤ sumCounts d ks →
    ∃ p, getPageLoop d ks n = some p ∧ p.IsPage = true := by
  intro ks
  induction ks with
  | nil =>
      intro n _ h1 h2
      simp only [sumCounts] at h2
      omega
  | cons k rest ih =>
      intro n hks h1 h2
      obtain ⟨hpg, hz, hcnt, hkids⟩ := hks k (List.mem_cons_self _ _)
      simp only [getPageLoop, hpg, hz, Bool.or_self, Bool.false_eq_true,
        if_false]
      by_cases hle : n ≤ (d.get k).GetInt (gs "count")
      · rw [if_pos hle]
        have hidx : 0 ≤ n - 1 ∧
            (n - 1).toNat < ((d.get k).GetStringArray (gs "kids")).length := by
          constructor
          · omega
          · have : (n - 1).toNat < ((d.get k).GetInt (gs "count")).toNat := by
              omega
            omega
        rw [dif_pos hidx]
        refine ⟨_, rfl, ?_⟩
        exact hkids _ (List.get_mem _ _ _)
      · rw [if_neg hle]
        have hsum : n - (d.get k).GetInt (gs "count") ≤ sumCounts d rest := by
          simp only [sumCounts] at h2
          omega
        exact ih (n - (d.get k).GetInt (gs "count"))
          (fun q hq => hks q (List.mem_cons_of_mem _ hq)) (by omega) hsum

/-- C1 (amended): `get_page(n)` checks the current node (a Page is returned
as-is); within bounds `1 ≤ n ≤ Count` the children are scanned — a child
that is a Page or unresolvable is returned immediately regardless of `n`,
a child with `n ≤ Count` has its `kids[n-1]` returned directly with no
deeper descent, otherwise the child's Count is subtracted.  Consequently
the guarantee that every `n` in `[1, page_count()]` yields a Page holds for
trees of depth two below the root: when every child of the root is a
resolvable interior node whose Count equals its number of kids and whose
kids are all Pages, and the root's Count is at most the sum of the
children's Counts. -/
theorem C1_get_page_two_level (d : DocM) (root : ObjectGo) (n : Int)
    (hroot : root.IsPage = false)
    (hk : ∀ k ∈ root.GetStringArray (gs "kids"),
      (d.get k).IsPage = false ∧ (d.get k).isZero = false ∧
      (d.get k).GetInt (gs "count") =
        ((d.get k).GetStringArray (gs "kids")).length ∧
      ∀ k2 ∈ (d.get k).GetStringArray (gs "kids"),
        (d.get k2).IsPage = true)
    (hcount : root.GetInt (gs "count") ≤
      sumCounts d (root.GetStringArray (gs "kids")))
    (hn1 : 1 ≤ n) (hn2 : n ≤ root.GetInt (gs "count")) :
    ∃ p, getPageObject d root n = some p ∧ p.IsPage = true := by
  unfold getPageObject
  rw [if_neg (by simp [hroot])]
  rw [if_neg (by omega)]
  exact getPageLoop_two_level d (root.GetStringArray (gs "kids")) n hk hn1
    (by omega)

/-- The two-level root: children 11/0 and 12/0, Count 2. -/
def c1wroot : ObjectGo :=
  { oid := gs "10/0",
    dict := some [(gs "type", .vStr (gs "Pages")),
                  (gs "kids", .vArr [.vStr (gs "11/0"), .vStr (gs "12/0")]),
                  (gs "count", .vInt 2)] }

/-- A two-level tree: root 10/0 with interior children 11/0 and 12/0, whose
kids 13/0 and 14/0 are leaf Pages. -/
def c1wdoc : DocM :=
  ⟨[(gs "10/0", c1wroot),
    (gs "11/0", pagesNode "11/0" "13/0"),
    (gs "12/0", pagesNode "12/0" "14/0"),
    (gs "13/0", pageLeaf "13/0"),
    (gs "14/0", pageLeaf "14/0")]⟩

/-- Witness for C1 (amended): page 2 of the two-level tree is a Page. -/
theorem C1_get_page_two_level_witness :
    ∃ p, getPageObject c1wdoc (DocM.get c1wdoc (gs "10/0")) 2 = some p ∧
      p.IsPage = true :=
  C1_get_page_two_level c1wdoc (DocM.get c1wdoc (gs "10/0")) 2
    (by decide) (by decide) (by decide) (by decide) (by decide)

/- ------------------------------------------------------------------ -/
/-  C10: GetOutlines drops a single top-level entry (src/doc.go:194-200,
    267-289)                                                           -/
/- ------------------------------------------------------------------ -/

/-- An `Outline` (src/doc.go:24-27): a title and its sub-outlines. -/
inductive OutlineGo where
  | mk (title : List Nat) (sub : List OutlineGo)

def OutlineGo.title : OutlineGo → List Nat
  | .mk t _ => t

def OutlineGo.sub : OutlineGo → List OutlineGo
  | .mk _ s => s

/-- The sibling loop of `Document.getOutlines` (src/doc.go:272-288): `last`
is fixed at entry; while the current object's Oid differs from `last`, the
object named `first` is loaded — an unresolvable one makes the whole call
return nil, discarding `lines` — `first` becomes its `next`, an `Outline`
with its `title` is appended, and when the item has a `first` key its
sub-outlines are the recursive walk seeded from that item's own
`first`/`last`.  `fuel` bounds the two recursions (the Go loop diverges on a
cyclic chain); `none` means fuel ran out. -/
def outlineWalk (d : DocM) :
    Nat → List Nat → ObjectGo → List Nat → List OutlineGo →
    Option (List OutlineGo)
  | 0, _, _, _, _ => none
  | fuel + 1, last, obj, first, lines =>
      if obj.oid = last then some lines
      else
        let obj2 := d.get first
        if obj2.isZero then some []
        else
          match (if obj2.Has (gs "first") then
                   outlineWalk d fuel (obj2.GetString (gs "last")) obj2
                     (obj2.GetString (gs "first")) []
                 else some []) with
          | none => none
          | some sub =>
              outlineWalk d fuel last obj2 (obj2.GetString (gs "next"))
                (lines ++ [.mk (obj2.GetString (gs "title")) sub])

/-- `Document.getOutlines` (src/doc.go:267-289): nil on the zero object,
else the sibling walk from the node's `first`/`last`. -/
def getOutlinesM (d : DocM) (fuel : Nat) (obj : ObjectGo) :
    Option (List OutlineGo) :=
  if obj.isZero then some []
  else outlineWalk d fuel (obj.GetString (gs "last")) obj
    (obj.GetString (gs "first")) []

/-- `Document.getOutlinesFromCatalog` (src/doc.go:259-265); the catalog Oid
is the `Document.catalog` field, passed explicitly. -/
def getOutlinesFromCatalogM (d : DocM) (catalog : List Nat) : ObjectGo :=
  let obj := d.get catalog
  if obj.isZero then obj
  else d.get (obj.GetString (gs "outlines"))

/-- `Document.GetOutlines` (src/doc.go:194-200): the walked list, emptied
when it has at most one entry. -/
def GetOutlinesM (d : DocM) (catalog : List Nat) (fuel : Nat) :
    Option (List OutlineGo) :=
  (getOutlinesM d fuel (getOutlinesFromCatalogM d catalog)).map
    (fun l => if l.length ≤ 1 then [] else l)

/-- C10: whenever the sibling walk over the catalog's /Outlines yields at
most one entry, `GetOutlines` reports no outlines at all — even when that
one entry exists and is titled. -/
theorem C10_single_outline_dropped (d : DocM) (catalog : List Nat)
    (fuel : Nat) (l : List OutlineGo)
    (hw : getOutlinesM d fuel (getOutlinesFromCatalogM d catalog) = some l)
    (hl : l.length ≤ 1) :
    GetOutlinesM d catalog fuel = some [] := by
  unfold GetOutlinesM
  rw [hw]
  simp [hl]

/-- The catalog of the single-outline document. -/
def c10catalog : ObjectGo :=
  { oid := gs "1/0",
    dict := some [(gs "type", .vStr (gs "Catalog")),
                  (gs "outlines", .vStr (gs "5/0"))] }

/-- An outlines root whose first and last top-level item coincide. -/
def c10root : ObjectGo :=
  { oid := gs "5/0",
    dict := some [(gs "type", .vStr (gs "Outlines")),
                  (gs "first", .vStr (gs "6/0")),
                  (gs "last", .vStr (gs "6/0"))] }

/-- The single top-level outline item, titled A, with no children. -/
def c10item : ObjectGo :=
  { oid := gs "6/0",
    dict := some [(gs "title", .vStr (gs "A"))] }

/-- A document whose outline tree has exactly one titled top-level item. -/
def c10doc : DocM :=
  ⟨[(gs "1/0", c10catalog), (gs "5/0", c10root), (gs "6/0", c10item)]⟩

/-- Witness for C10: on the single-item document the walk yields exactly the
one titled entry, yet `GetOutlines` returns the empty list. -/
theorem C10_single_outline_dropped_witness :
    getOutlinesM c10doc 3 (getOutlinesFromCatalogM c10doc (gs "1/0")) =
      some [.mk (gs "A") []] ∧
    GetOutlinesM c10doc (gs "1/0") 3 = some [] :=
  ⟨rfl, C10_single_outline_dropped c10doc (gs "1/0") 3 [.mk (gs "A") []]
    rfl (by decide)⟩
